import Mathlib

/-!
# Workspace Session & Sandboxed Filesystem Engine — verification

Shallow embedding of `src/agent/workspace.py` (Intern-Mini repository):
the path guard (`_coerce_relative_path`, `resolve_workspace_path`), the
file/directory operations (`read_text_file`, `write_text_file`,
`create_folder`, `delete_path`, `rename_path`, `list_relative_files`,
`list_flat_text_files`, `build_workspace_zip`) and the session registry
(`_normalize_workspace_id`, `_effective_workspace_id`, `ensure_session`,
`touch_session`, `delete_session`).

Modelling conventions:
* A session's filesystem subtree is a finite association list from
  root-relative segment lists to nodes (`FS`).  The session root itself is
  implicit (the empty segment list always exists and is a directory);
  consequently deletion of the root directory itself is outside the model.
* Machine paths use POSIX separators (`/`); `pathlib`'s Windows-only drive
  detection (`Path(value).drive`) is embedded as a letter-colon test, the
  meaning it has under the Windows path flavour (under the POSIX flavour the
  attribute's value is always empty and the check never fires).
* `Path.resolve()` is embedded as lexical segment normalization with `..`
  popping clamped at the filesystem root; symbolic links are not modelled
  (the repository never creates any inside a workspace).
* Python `str` is embedded as Lean `String` (a sequence of Unicode scalar
  values); file contents are byte lists, with a full strict UTF-8
  encoder/decoder mirroring `str.encode("utf-8")` / `bytes.decode("utf-8")`.
* Time is an injected natural-number clock; `datetime.now` becomes the
  explicit `now` argument of each registry operation.
* The registry operations' directory I/O (`mkdir` of the session root on
  creation/renewal) is not carried in the registry model; `delete_session`,
  whose contract is about the disk, additionally threads the set of
  session root directories that exist on disk.
-/

/-- Error kinds of the workspace core: `WorkspaceValidationError`,
`FileNotFoundError`, `WorkspaceConflictError`, `WorkspaceBinaryFileError`,
and any other propagated `OSError`. -/
inductive WsError where
  | validation
  | notFound
  | conflict
  | binaryFile
  | osError
deriving DecidableEq, Repr

/-- One filesystem node below a session root: a regular file with byte
content, or a directory. -/
inductive FsNode where
  | file (content : List Nat)
  | dir
deriving DecidableEq, Repr

/-- The contents of one session root: an association list from root-relative
paths (segment lists) to nodes.  The root itself (`[]`) is implicit. -/
abbrev FS := List (List String × FsNode)

def exceptDecEq {ε α : Type} [DecidableEq ε] [DecidableEq α] :
    (a b : Except ε α) → Decidable (a = b)
  | Except.error a, Except.error b =>
    if h : a = b then isTrue (by rw [h])
    else isFalse (fun hh => h (by injection hh))
  | Except.error _, Except.ok _ => isFalse (fun hh => by cases hh)
  | Except.ok _, Except.error _ => isFalse (fun hh => by cases hh)
  | Except.ok a, Except.ok b =>
    if h : a = b then isTrue (by rw [h])
    else isFalse (fun hh => h (by injection hh))

instance {ε α : Type} [DecidableEq ε] [DecidableEq α] : DecidableEq (Except ε α) :=
  exceptDecEq

/-- Association-list lookup of a path in a session subtree. -/
def lookupFS : FS → List String → Option FsNode
  | [], _ => none
  | e :: rest, p => if e.1 = p then some e.2 else lookupFS rest p

/-- `Path.exists()` relative to the session root (the root itself exists). -/
def existsPath (fs : FS) (p : List String) : Bool :=
  decide (p = []) || (lookupFS fs p).isSome

/-- `Path.is_dir()` relative to the session root. -/
def isDirAt (fs : FS) (p : List String) : Bool :=
  decide (p = []) ||
    match lookupFS fs p with
    | some FsNode.dir => true
    | _ => false

/-- `Path.is_file()` relative to the session root. -/
def isFileAt (fs : FS) (p : List String) : Bool :=
  match lookupFS fs p with
  | some (FsNode.file _) => true
  | _ => false

/-- `q` is an initial segment of `p` (the entry at `p` is `q` itself or a
descendant of `q`). -/
def isInitOf : List String → List String → Bool
  | [], _ => true
  | _, [] => false
  | a :: as, b :: bs => decide (a = b) && isInitOf as bs

/-- `any(target.iterdir())`: the directory at `p` has at least one entry. -/
def hasChildren (fs : FS) (p : List String) : Bool :=
  fs.any (fun e => decide (e.1 ≠ p) && isInitOf p e.1)

/-- Root-relative POSIX rendering of a segment list
(`Path.relative_to(root).as_posix()`). -/
def posixOf : List String → String
  | [] => ""
  | [s] => s
  | s :: rest => s ++ "/" ++ posixOf rest

/-- An entry is a regular file. -/
def isFileEntry (e : List String × FsNode) : Bool :=
  match e.2 with
  | FsNode.file _ => true
  | FsNode.dir => false

/-- Well-formedness of a session subtree as the real filesystem guarantees
it: keys are distinct and nonempty, and every proper ancestor of an entry is
present as a directory. -/
def WFfs (fs : FS) : Prop :=
  (fs.map Prod.fst).Nodup ∧
    ∀ e ∈ fs, e.1 ≠ [] ∧
      ∀ n, n < e.1.length → 0 < n → lookupFS fs (e.1.take n) = some FsNode.dir

instance (fs : FS) : Decidable (WFfs fs) := by
  unfold WFfs
  infer_instance

/-! ## Path guard (`_coerce_relative_path`, `resolve_workspace_path`) -/

/-- Python `str.strip()` on both ends (whitespace removal), embedded
explicitly so that its interaction with the id/path character sets stays
provable. -/
def stripString (s : String) : String :=
  ⟨((s.data.dropWhile Char.isWhitespace).reverse.dropWhile Char.isWhitespace).reverse⟩

/-- `PurePath.is_absolute()`: a POSIX path is absolute iff it is rooted. -/
def isAbsolutePath (v : String) : Bool :=
  match v.data with
  | c :: _ => decide (c = '/')
  | [] => false

/-- `PurePath.drive` being nonempty: a drive letter followed by a colon
(the Windows path flavour; under the POSIX flavour this attribute is always
empty). -/
def hasDrivePrefixQualifier (v : String) : Bool :=
  match v.data with
  | c :: d :: _ => c.isAlpha && decide (d = ':')
  | _ => false

/-- `_coerce_relative_path` of `workspace.py`: strip, handle empty/"."
(allowed only for root access), reject absolute and drive-qualified paths. -/
def coerceRelativePath (path : String) (allowRoot : Bool) : Except WsError String :=
  let value := stripString path
  if value = "" ∨ value = "." then
    if allowRoot then Except.ok "." else Except.error WsError.validation
  else if isAbsolutePath value then Except.error WsError.validation
  else if hasDrivePrefixQualifier value then Except.error WsError.validation
  else Except.ok value

/-- Split a character list on `/` separators. -/
def splitSlash (cur : List Char) : List Char → List String
  | [] => [⟨cur.reverse⟩]
  | c :: rest =>
    if c = '/' then (⟨cur.reverse⟩ : String) :: splitSlash [] rest
    else splitSlash (c :: cur) rest

/-- Segments of a relative path string: split on `/`, discarding empty and
`.` components exactly as `pathlib.PurePath` does on construction. -/
def segsOf (v : String) : List String :=
  (splitSlash [] v.data).filter (fun s => decide (s ≠ "" ∧ s ≠ "."))

/-- Lexical core of `Path.resolve()`: process segments left to right onto an
absolute segment stack, `..` popping one level and clamping at the
filesystem root. -/
def normalizeSegs (acc : List String) : List String → List String
  | [] => acc
  | s :: rest =>
    if s = ".." then normalizeSegs acc.dropLast rest
    else normalizeSegs (acc ++ [s]) rest

/-- `resolve_workspace_path`: coerce to a relative path, join onto the root,
resolve, and require the result to stay at or below the root.  Returns the
resolved path relative to the root. -/
def resolveWorkspacePath (root : List String) (path : String) (allowRoot : Bool) :
    Except WsError (List String) :=
  match coerceRelativePath path allowRoot with
  | Except.error e => Except.error e
  | Except.ok value =>
    if value = "." then Except.ok []
    else
      let resolved := normalizeSegs root (segsOf value)
      if isInitOf root resolved then Except.ok (resolved.drop root.length)
      else Except.error WsError.validation

example : resolveWorkspacePath ["tmp", "ws", "default"] "a/b.txt" false =
    Except.ok ["a", "b.txt"] := by decide

example : resolveWorkspacePath ["tmp", "ws", "default"] "../escape" false =
    Except.error WsError.validation := by decide

example : resolveWorkspacePath ["tmp", "ws", "default"] "a/../b" false =
    Except.ok ["b"] := by decide

example : resolveWorkspacePath ["tmp", "ws", "default"] "../default/x" false =
    Except.ok ["x"] := by decide

example : resolveWorkspacePath ["tmp", "ws", "default"] "/abs" true =
    Except.error WsError.validation := by decide

example : resolveWorkspacePath ["tmp", "ws", "default"] "C:stuff" true =
    Except.error WsError.validation := by decide

example : resolveWorkspacePath ["tmp", "ws", "default"] "" true = Except.ok [] := by decide

example : resolveWorkspacePath ["tmp", "ws", "default"] "" false =
    Except.error WsError.validation := by decide

/-! ## UTF-8 codec (`str.encode("utf-8")` / `bytes.decode("utf-8")`) -/

/-- Strict UTF-8 encoding of one Unicode scalar value. -/
def utf8EncodeChar (c : Char) : List Nat :=
  if c.toNat < 0x80 then [c.toNat]
  else if c.toNat < 0x800 then [0xC0 + c.toNat / 64, 0x80 + c.toNat % 64]
  else if c.toNat < 0x10000 then
    [0xE0 + c.toNat / 4096, 0x80 + c.toNat / 64 % 64, 0x80 + c.toNat % 64]
  else
    [0xF0 + c.toNat / 262144, 0x80 + c.toNat / 4096 % 64, 0x80 + c.toNat / 64 % 64,
      0x80 + c.toNat % 64]

/-- UTF-8 encoding of a character list. -/
def utf8EncodeList : List Char → List Nat
  | [] => []
  | c :: cs => utf8EncodeChar c ++ utf8EncodeList cs

/-- `str.encode("utf-8")`: the byte sequence a text write stores. -/
def utf8Encode (s : String) : List Nat :=
  utf8EncodeList s.data

/-- Continuation of a two-byte UTF-8 sequence with lead byte `b0`
(`0xC2 ≤ b0 < 0xE0`): returns the decoded scalar and the remaining bytes. -/
def utf8Cont2 (b0 : Nat) : List Nat → Option (Nat × List Nat)
  | b1 :: rest =>
    if 0x80 ≤ b1 ∧ b1 < 0xC0 then some ((b0 - 0xC0) * 64 + (b1 - 0x80), rest)
    else none
  | [] => none

/-- Continuation of a three-byte UTF-8 sequence with lead byte `b0`
(`0xE0 ≤ b0 < 0xF0`), rejecting overlong encodings and surrogates. -/
def utf8Cont3 (b0 : Nat) : List Nat → Option (Nat × List Nat)
  | b1 :: b2 :: rest =>
    if (0x80 ≤ b1 ∧ b1 < 0xC0) ∧ (0x80 ≤ b2 ∧ b2 < 0xC0) ∧
        (b0 = 0xE0 → 0xA0 ≤ b1) ∧ (b0 = 0xED → b1 < 0xA0) then
      some ((b0 - 0xE0) * 4096 + (b1 - 0x80) * 64 + (b2 - 0x80), rest)
    else none
  | _ => none

/-- Continuation of a four-byte UTF-8 sequence with lead byte `b0`
(`0xF0 ≤ b0 < 0xF5`), rejecting overlong encodings and values above
`U+10FFFF`. -/
def utf8Cont4 (b0 : Nat) : List Nat → Option (Nat × List Nat)
  | b1 :: b2 :: b3 :: rest =>
    if (0x80 ≤ b1 ∧ b1 < 0xC0) ∧ (0x80 ≤ b2 ∧ b2 < 0xC0) ∧ (0x80 ≤ b3 ∧ b3 < 0xC0) ∧
        (b0 = 0xF0 → 0x90 ≤ b1) ∧ (b0 = 0xF4 → b1 < 0x90) then
      some ((b0 - 0xF0) * 262144 + (b1 - 0x80) * 4096 + (b2 - 0x80) * 64 + (b3 - 0x80), rest)
    else none
  | _ => none

/-- Decode one scalar value from the head of a byte list, strictly
(CPython's `bytes.decode("utf-8")`): rejects truncated sequences, stray
continuation bytes, overlong encodings, surrogates and values above
`U+10FFFF`. -/
def utf8DecodeOne : List Nat → Option (Nat × List Nat)
  | [] => none
  | b0 :: rest =>
    if b0 < 0x80 then some (b0, rest)
    else if b0 < 0xC2 then none
    else if b0 < 0xE0 then utf8Cont2 b0 rest
    else if b0 < 0xF0 then utf8Cont3 b0 rest
    else if b0 < 0xF5 then utf8Cont4 b0 rest
    else none

/-- Strict UTF-8 decoding loop.  Each step consumes at least one byte, so
fuel equal to the byte count always suffices; the fuel only makes the
recursion structural. -/
def utf8DecodeLoop : Nat → List Nat → Option (List Char)
  | _, [] => some []
  | 0, _ :: _ => none
  | fuel + 1, b :: bs =>
    match utf8DecodeOne (b :: bs) with
    | none => none
    | some (v, rest) => (utf8DecodeLoop fuel rest).map (fun cs => Char.ofNat v :: cs)

/-- Strict UTF-8 decoding of a whole byte list. -/
def utf8DecodeChars (bs : List Nat) : Option (List Char) :=
  utf8DecodeLoop bs.length bs

/-- `bytes.decode("utf-8")` at the `str` level. -/
def utf8DecodeString (bs : List Nat) : Option String :=
  (utf8DecodeChars bs).map (fun cs => ⟨cs⟩)

example : utf8DecodeString (utf8Encode "héllo✓") = some "héllo✓" := by decide
example : utf8DecodeString [255, 254, 253] = none := by decide
example : utf8DecodeString [0xC0, 0x80] = none := by decide
example : utf8DecodeString [0xED, 0xA0, 0x80] = none := by decide

/-! ## File and directory operations -/

/-- `MAX_EDITABLE_FILE_CHARS` from `workspace.py`. -/
def MAX_EDITABLE_FILE_CHARS : Nat := 400000

/-- `Path.mkdir(parents=True, exist_ok=True)` below the session root: create
every missing ancestor (and the target) as a directory; fail like
`NotADirectoryError`/`FileExistsError` when a component is a regular file.
`pathlib` creates nothing in that failure case: the `os.mkdir` attempt of a
deeper component fails before any ancestor is created, because an existing
file component means every shorter component already exists. -/
def mkdirP (fs : FS) (pre : List String) : List String → Except WsError FS
  | [] => Except.ok fs
  | s :: rest =>
    match lookupFS fs (pre ++ [s]) with
    | some FsNode.dir => mkdirP fs (pre ++ [s]) rest
    | some (FsNode.file _) => Except.error WsError.osError
    | none => mkdirP (((pre ++ [s]), FsNode.dir) :: fs) (pre ++ [s]) rest

/-- `Path.write_text(content, encoding="utf-8")`: overwrite an existing
regular file or create a new one; writing onto a directory (including the
root) raises `IsADirectoryError`. -/
def writeBytes (fs : FS) (p : List String) (b : List Nat) : Except WsError FS :=
  if p = [] then Except.error WsError.osError
  else
    match lookupFS fs p with
    | some FsNode.dir => Except.error WsError.osError
    | some (FsNode.file _) =>
      Except.ok (fs.map (fun e => if e.1 = p then (p, FsNode.file b) else e))
    | none => Except.ok ((p, FsNode.file b) :: fs)

/-- `read_text_file` of `workspace.py`. -/
def read_text_file (root : List String) (p : String) (fs : FS) :
    Except WsError String × FS :=
  match resolveWorkspacePath root p false with
  | Except.error e => (Except.error e, fs)
  | Except.ok rel =>
    match lookupFS fs rel with
    | some (FsNode.file b) =>
      match utf8DecodeString b with
      | some s => (Except.ok s, fs)
      | none => (Except.error WsError.binaryFile, fs)
    | _ => (Except.error WsError.notFound, fs)

/-- `write_text_file` of `workspace.py`: size cap first, then the path
guard, then parent creation, then the write. -/
def write_text_file (root : List String) (p : String) (content : String) (fs : FS) :
    Except WsError String × FS :=
  if content.length > MAX_EDITABLE_FILE_CHARS then (Except.error WsError.validation, fs)
  else
    match resolveWorkspacePath root p false with
    | Except.error e => (Except.error e, fs)
    | Except.ok rel =>
      match mkdirP fs [] rel.dropLast with
      | Except.error e => (Except.error e, fs)
      | Except.ok fs1 =>
        match writeBytes fs1 rel (utf8Encode content) with
        | Except.error e => (Except.error e, fs1)
        | Except.ok fs2 => (Except.ok (posixOf rel), fs2)

/-- `create_folder` of `workspace.py`. -/
def create_folder (root : List String) (p : String) (fs : FS) :
    Except WsError String × FS :=
  match resolveWorkspacePath root p false with
  | Except.error e => (Except.error e, fs)
  | Except.ok rel =>
    match mkdirP fs [] rel with
    | Except.error e => (Except.error e, fs)
    | Except.ok fs1 => (Except.ok (posixOf rel), fs1)

/-- The string `delete_path` returns: `path.strip().replace("\\", "/")`. -/
def cleanedReturnPath (p : String) : String :=
  ⟨(stripString p).data.map (fun c => if c = '\\' then '/' else c)⟩

/-- `delete_path` of `workspace.py`: `NotFound` when absent; a non-empty
directory needs `recursive` (`shutil.rmtree`), an empty directory uses
`rmdir`, a file uses `unlink`. -/
def delete_path (root : List String) (p : String) (recursive : Bool) (fs : FS) :
    Except WsError String × FS :=
  match resolveWorkspacePath root p false with
  | Except.error e => (Except.error e, fs)
  | Except.ok rel =>
    if existsPath fs rel = false then (Except.error WsError.notFound, fs)
    else if isDirAt fs rel then
      if hasChildren fs rel ∧ recursive = false then (Except.error WsError.conflict, fs)
      else if hasChildren fs rel then
        (Except.ok (cleanedReturnPath p), fs.filter (fun e => !(isInitOf rel e.1)))
      else (Except.ok (cleanedReturnPath p), fs.filter (fun e => decide (e.1 ≠ rel)))
    else (Except.ok (cleanedReturnPath p), fs.filter (fun e => decide (e.1 ≠ rel)))

/-- Key re-rooting performed by a rename: paths at or below `src` move to
the corresponding path below `tgt`; all others stay. -/
def mvKey (src tgt k : List String) : List String :=
  if isInitOf src k then tgt ++ k.drop src.length else k

/-- `os.rename` (`Path.rename`) after the destination has been cleared:
fails when the source is gone, or when a directory would be moved into
itself; otherwise re-roots the whole source subtree at the target. -/
def osRename (fs : FS) (src tgt : List String) : Except WsError FS :=
  if existsPath fs src = false then Except.error WsError.osError
  else if isInitOf src tgt ∧ src ≠ tgt then Except.error WsError.osError
  else Except.ok (fs.map (fun e => (mvKey src tgt e.1, e.2)))

/-- `rename_path` of `workspace.py`: `NotFound` when the source is absent;
an existing destination is a `Conflict` unless `overwrite`, in which case it
is removed (recursively for a directory) before the rename. -/
def rename_path (root : List String) (fromPath toPath : String) (overwrite : Bool)
    (fs : FS) : Except WsError String × FS :=
  match resolveWorkspacePath root fromPath false with
  | Except.error e => (Except.error e, fs)
  | Except.ok src =>
    match resolveWorkspacePath root toPath false with
    | Except.error e => (Except.error e, fs)
    | Except.ok tgt =>
      if existsPath fs src = false then (Except.error WsError.notFound, fs)
      else if existsPath fs tgt ∧ overwrite = false then (Except.error WsError.conflict, fs)
      else
        let fs1 :=
          if existsPath fs tgt then
            if isDirAt fs tgt then fs.filter (fun e => !(isInitOf tgt e.1))
            else fs.filter (fun e => decide (e.1 ≠ tgt))
          else fs
        match mkdirP fs1 [] tgt.dropLast with
        | Except.error e => (Except.error e, fs1)
        | Except.ok fs2 =>
          match osRename fs2 src tgt with
          | Except.error e => (Except.error e, fs2)
          | Except.ok fs3 => (Except.ok (posixOf tgt), fs3)

/-- Python string `<=`: code-point lexicographic comparison of character
lists (a proper initial segment is smaller). -/
def charsLe : List Char → List Char → Bool
  | [], _ => true
  | _ :: _, [] => false
  | a :: as, b :: bs =>
    if a.toNat < b.toNat then true
    else if b.toNat < a.toNat then false
    else charsLe as bs

/-- Python string `<=` on `str` values. -/
def strLeB (a b : String) : Bool :=
  charsLe a.data b.data

/-- Python string `<=` as a relation. -/
def strLe (a b : String) : Prop :=
  strLeB a b = true

instance : DecidableRel strLe := fun a b =>
  inferInstanceAs (Decidable (strLeB a b = true))

/-- Comparison used by `sorted(..., key=lambda p: p.as_posix())`: code-point
lexicographic order on the rendered path.  The source compares absolute
POSIX path strings; under one fixed root prefix this orders entries exactly
like their root-relative renderings. -/
def entryLe (a b : List String × FsNode) : Prop :=
  strLe (posixOf a.1) (posixOf b.1)

instance : DecidableRel entryLe := fun a b =>
  inferInstanceAs (Decidable (strLeB (posixOf a.1) (posixOf b.1) = true))

/-- All regular files of the session subtree, in sorted
root-relative-POSIX-path order — the shared enumeration of
`list_flat_text_files` and `build_workspace_zip`.  (`sorted` in Python is a
stable sort; on the pairwise-distinct paths produced by a real filesystem
walk any comparison sort yields this same list.) -/
def sortedFileEntries (fs : FS) : FS :=
  List.insertionSort entryLe (fs.filter isFileEntry)

/-- `list_relative_files` of `workspace.py`. -/
def list_relative_files (root : List String) (dir : String) (fs : FS) :
    Except WsError (List String) × FS :=
  match resolveWorkspacePath root dir true with
  | Except.error e => (Except.error e, fs)
  | Except.ok rel =>
    if existsPath fs rel = false then (Except.error WsError.notFound, fs)
    else if isDirAt fs rel = false then (Except.error WsError.validation, fs)
    else
      (Except.ok
        (List.insertionSort strLe
          ((fs.filter (fun e => isFileEntry e && isInitOf rel e.1)).map
            (fun e => posixOf e.1))), fs)

/-- The accumulation loop of `list_flat_text_files`: UTF-8 readable files go
into the content map (in iteration order), undecodable ones into the
binary-skip list. -/
def flatFold : FS → List (String × String) × List String
  | [] => ([], [])
  | (_p, FsNode.dir) :: rest => flatFold rest
  | (p, FsNode.file b) :: rest =>
    match utf8DecodeString b with
    | some s => ((posixOf p, s) :: (flatFold rest).1, (flatFold rest).2)
    | none => ((flatFold rest).1, posixOf p :: (flatFold rest).2)

/-- `list_flat_text_files` of `workspace.py`: total — a decode failure is
recorded, never raised. -/
def list_flat_text_files (fs : FS) : List (String × String) × List String :=
  flatFold (sortedFileEntries fs)

/-- `build_workspace_zip` of `workspace.py`, abstracted to the ordered list
of (entry name, file bytes) pairs fed to the deterministic
deflate/zip serializer. -/
def build_workspace_zip (fs : FS) : List (String × List Nat) :=
  (sortedFileEntries fs).map
    (fun e => (posixOf e.1, match e.2 with | FsNode.file b => b | FsNode.dir => []))

example :
    write_text_file ["r"] "src/app.txt" "hello" [] =
      (Except.ok "src/app.txt",
        [(["src", "app.txt"], FsNode.file [104, 101, 108, 108, 111]),
          (["src"], FsNode.dir)]) := by decide

example :
    read_text_file ["r"] "src/app.txt"
      [(["src", "app.txt"], FsNode.file [104, 101, 108, 108, 111]), (["src"], FsNode.dir)] =
      (Except.ok "hello",
        [(["src", "app.txt"], FsNode.file [104, 101, 108, 108, 111]), (["src"], FsNode.dir)]) := by
  decide

example :
    list_flat_text_files
      [(["bin.dat"], FsNode.file [255, 254, 253]), (["a.txt"], FsNode.file [104]), ([], FsNode.dir)] =
      ([("a.txt", "h")], ["bin.dat"]) := by decide

example :
    (delete_path ["r"] "d" false [(["d"], FsNode.dir), (["d", "f"], FsNode.file [])]).1 =
      Except.error WsError.conflict := by decide

example :
    delete_path ["r"] "d" true [(["d"], FsNode.dir), (["d", "f"], FsNode.file []), (["z"], FsNode.file [1])] =
      (Except.ok "d", [(["z"], FsNode.file [1])]) := by decide

example :
    rename_path ["r"] "a" "b" true [(["a"], FsNode.file [104]), (["b"], FsNode.file [])] =
      (Except.ok "b", [(["b"], FsNode.file [104])]) := by decide

example :
    build_workspace_zip
      [(["b"], FsNode.file [2]), (["a"], FsNode.dir), (["a", "x"], FsNode.file [1])] =
      [("a/x", [1]), ("b", [2])] := by decide

/-! ## Session registry -/

/-- `DEFAULT_WORKSPACE_ID` from `workspace.py`. -/
def DEFAULT_WORKSPACE_ID : String := "default"

/-- `SESSION_TTL_SECONDS` from `workspace.py`. -/
def SESSION_TTL_SECONDS : Nat := 60 * 60

/-- A character admitted by `_WORKSPACE_ID_PATTERN` (`[A-Za-z0-9_-]`). -/
def isWorkspaceIdChar (c : Char) : Bool :=
  c.isAlphanum || decide (c = '_') || decide (c = '-')

/-- `_normalize_workspace_id`: empty input denotes the default session;
otherwise the id must match `[A-Za-z0-9_-]{1,128}`. -/
def normalizeWorkspaceId (workspace_id : Option String) : Except WsError String :=
  let value := stripString (workspace_id.getD "")
  if value = "" then Except.ok DEFAULT_WORKSPACE_ID
  else if value.length ≤ 128 ∧ value.data.all isWorkspaceIdChar then Except.ok value
  else Except.error WsError.validation

/-- `_effective_workspace_id` resolution from the context binding on down:
the branch taken when the explicit id is absent or blank. -/
def effectiveFromContext (ctx : Option String) : Except WsError String :=
  match ctx with
  | some c =>
    if stripString c ≠ "" then normalizeWorkspaceId (some c)
    else Except.ok DEFAULT_WORKSPACE_ID
  | none => Except.ok DEFAULT_WORKSPACE_ID

/-- `_effective_workspace_id`: explicit non-blank id first, then the active
context binding, then the default id. -/
def effectiveWorkspaceId (explicit ctx : Option String) : Except WsError String :=
  match explicit with
  | some e =>
    if stripString e ≠ "" then normalizeWorkspaceId (some e)
    else effectiveFromContext ctx
  | none => effectiveFromContext ctx

/-- `_session_path`: every session root is the base directory's child named
by the id (the default session uses the fixed `default` subdirectory). -/
def sessionPath (baseDir : List String) (workspace_id : String) : List String :=
  baseDir ++ [workspace_id]

/-- `WorkspaceSession` record (`path` is absolute, as segment list). -/
structure WsSession where
  workspace_id : String
  path : List String
  last_accessed : Nat
  expires_at : Nat
  ttl_seconds : Nat
deriving DecidableEq, Repr

/-- The `_SESSIONS` table. -/
abbrev Registry := List (String × WsSession)

/-- Registry lookup (`_SESSIONS.get`). -/
def lookupReg : Registry → String → Option WsSession
  | [], _ => none
  | e :: rest, k => if e.1 = k then some e.2 else lookupReg rest k

/-- Registry removal (`_SESSIONS.pop`). -/
def removeReg (reg : Registry) (k : String) : Registry :=
  reg.filter (fun e => decide (e.1 ≠ k))

/-- Registry insertion/update (`_SESSIONS[k] = s`). -/
def insertReg (reg : Registry) (k : String) (s : WsSession) : Registry :=
  (k, s) :: removeReg reg k

/-- `_new_session` (its `mkdir` side effect is not carried in the registry
model). -/
def newSession (workspace_id : String) (path : List String) (ttl now : Nat) : WsSession :=
  { workspace_id := workspace_id
    path := path
    last_accessed := now
    expires_at := now + ttl
    ttl_seconds := ttl }

/-- `_session_expired`. -/
def sessionExpired (s : WsSession) (now : Nat) : Bool :=
  decide (s.expires_at ≤ now)

/-- `ensure_session` of `workspace.py`: resolve the effective id; drop a
cached entry whose stored root no longer matches the configured base
directory; delete and recreate an expired entry; renew a live one
(sliding-window TTL with the entry's own `ttl_seconds`); create a missing
one with the given TTL. -/
def ensure_session (baseDir : List String) (ctx : Option String) (reg : Registry)
    (workspace_id : Option String) (ttl now : Nat) :
    Except WsError (WsSession × Registry) :=
  match effectiveWorkspaceId workspace_id ctx with
  | Except.error e => Except.error e
  | Except.ok normalized =>
    let expected := sessionPath baseDir normalized
    let reg1 :=
      match lookupReg reg normalized with
      | some existing => if existing.path ≠ expected then removeReg reg normalized else reg
      | none => reg
    match lookupReg reg1 normalized with
    | some existing =>
      if sessionExpired existing now then
        let s := newSession normalized expected ttl now
        Except.ok (s, insertReg (removeReg reg1 normalized) normalized s)
      else
        let s :=
          { existing with last_accessed := now, expires_at := now + existing.ttl_seconds,
                          path := expected }
        Except.ok (s, insertReg reg1 normalized s)
    | none =>
      let s := newSession normalized expected ttl now
      Except.ok (s, insertReg reg1 normalized s)

/-- `touch_session` of `workspace.py`: normalize, ensure (with the default
TTL), then renew explicitly, optionally overriding `ttl_seconds`. -/
def touch_session (baseDir : List String) (ctx : Option String) (reg : Registry)
    (workspace_id : String) (ttl_override : Option Nat) (now : Nat) :
    Except WsError (WsSession × Registry) :=
  match normalizeWorkspaceId (some workspace_id) with
  | Except.error e => Except.error e
  | Except.ok normalized =>
    match ensure_session baseDir ctx reg (some normalized) SESSION_TTL_SECONDS now with
    | Except.error e => Except.error e
    | Except.ok (s, reg1) =>
      let ttl := ttl_override.getD s.ttl_seconds
      let s1 := { s with last_accessed := now, ttl_seconds := ttl, expires_at := now + ttl }
      Except.ok (s1, insertReg reg1 normalized s1)

/-- `delete_session` of `workspace.py`: pop the registry entry; the rmtree
target is the popped entry's stored root, or the recomputed session path
when no entry existed; report whether that directory existed on disk.
`disk` is the set of session root directories currently existing on disk. -/
def delete_session (baseDir : List String) (reg : Registry) (disk : List (List String))
    (workspace_id : String) :
    Except WsError (Bool × Registry × List (List String)) :=
  match normalizeWorkspaceId (some workspace_id) with
  | Except.error e => Except.error e
  | Except.ok normalized =>
    let entry := lookupReg reg normalized
    let reg1 := removeReg reg normalized
    let target :=
      match entry with
      | some s => s.path
      | none => sessionPath baseDir normalized
    if target ∈ disk then Except.ok (true, reg1, disk.erase target)
    else Except.ok (false, reg1, disk)

example :
    ensure_session ["base"] none [] (some "abc") 3600 100 =
      Except.ok (⟨"abc", ["base", "abc"], 100, 3700, 3600⟩,
        [("abc", ⟨"abc", ["base", "abc"], 100, 3700, 3600⟩)]) := by decide

example :
    touch_session ["base"] none [("a", ⟨"a", ["base", "a"], 0, 3600, 3600⟩)] "a"
        (some 10) 1 =
      Except.ok (⟨"a", ["base", "a"], 1, 11, 10⟩,
        [("a", ⟨"a", ["base", "a"], 1, 11, 10⟩)]) := by decide

example :
    delete_session ["base"] [("a", ⟨"a", ["base", "a"], 0, 3600, 3600⟩)] [["base", "a"]] "a" =
      Except.ok (true, [], []) := by decide

example :
    delete_session ["base"] [] [] "gone" = Except.ok (false, [], []) := by decide

/-! ## Lemmas: initial segments and association lookups -/

theorem isInitOf_iff (q : List String) :
    ∀ p, isInitOf q p = true ↔ ∃ r, p = q ++ r := by
  induction q with
  | nil =>
    intro p
    simp [isInitOf]
  | cons a as ih =>
    intro p
    cases p with
    | nil => simp [isInitOf]
    | cons b bs =>
      simp only [isInitOf, Bool.and_eq_true, decide_eq_true_eq, ih, List.cons_append,
        List.cons.injEq]
      constructor
      · rintro ⟨rfl, r, rfl⟩
        exact ⟨r, rfl, rfl⟩
      · rintro ⟨r, rfl, rfl⟩
        exact ⟨rfl, r, rfl⟩

theorem isInitOf_refl (p : List String) : isInitOf p p = true := by
  rw [isInitOf_iff]
  exact ⟨[], by simp⟩

theorem isInitOf_append (q r : List String) : isInitOf q (q ++ r) = true := by
  rw [isInitOf_iff]
  exact ⟨r, rfl⟩

theorem isInitOf_length {q p : List String} (h : isInitOf q p = true) :
    q.length ≤ p.length := by
  rw [isInitOf_iff] at h
  obtain ⟨r, rfl⟩ := h
  simp

theorem isInitOf_nil_left (p : List String) : isInitOf [] p = true := by
  rw [isInitOf_iff]
  exact ⟨p, rfl⟩

theorem eq_of_isInitOf_of_length {q p : List String} (h : isInitOf q p = true)
    (hl : p.length ≤ q.length) : q = p := by
  rw [isInitOf_iff] at h
  obtain ⟨r, rfl⟩ := h
  cases r with
  | nil => simp
  | cons x xs =>
    rw [List.length_append, List.length_cons] at hl
    omega

theorem isInitOf_trans {a b c : List String} (h1 : isInitOf a b = true)
    (h2 : isInitOf b c = true) : isInitOf a c = true := by
  rw [isInitOf_iff] at h1 h2 ⊢
  obtain ⟨r, rfl⟩ := h1
  obtain ⟨t, rfl⟩ := h2
  exact ⟨r ++ t, by simp⟩

theorem isInitOf_drop {q p : List String} (h : isInitOf q p = true) :
    q ++ p.drop q.length = p := by
  rw [isInitOf_iff] at h
  obtain ⟨r, rfl⟩ := h
  simp

theorem isInitOf_dropLast {q p : List String} (h : isInitOf q p.dropLast = true) :
    isInitOf q p = true := by
  rcases eq_or_ne p [] with rfl | hp
  · simpa using h
  · have h2 : p.dropLast ++ [p.getLast hp] = p := List.dropLast_append_getLast hp
    rw [isInitOf_iff] at h
    obtain ⟨r, hr⟩ := h
    rw [isInitOf_iff]
    refine ⟨r ++ [p.getLast hp], ?_⟩
    rw [← List.append_assoc, ← hr, h2]

theorem lookupFS_eq_none_iff (fs : FS) (p : List String) :
    lookupFS fs p = none ↔ ∀ e ∈ fs, e.1 ≠ p := by
  induction fs with
  | nil => simp [lookupFS]
  | cons e rest ih =>
    by_cases h : e.1 = p
    · rw [lookupFS, if_pos h]
      constructor
      · intro hc
        exact absurd hc (by simp)
      · intro hc
        exact absurd h (hc e (List.mem_cons_self e rest))
    · rw [lookupFS, if_neg h, ih]
      constructor
      · intro hc e2 he2
        rcases List.mem_cons.mp he2 with rfl | hm
        · exact h
        · exact hc e2 hm
      · intro hc e2 he2
        exact hc e2 (List.mem_cons_of_mem _ he2)

theorem mem_of_lookupFS_eq_some {fs : FS} {p : List String} {v : FsNode}
    (h : lookupFS fs p = some v) : (p, v) ∈ fs := by
  induction fs with
  | nil => simp [lookupFS] at h
  | cons e rest ih =>
    obtain ⟨k, w⟩ := e
    by_cases he : k = p
    · subst he
      rw [lookupFS, if_pos rfl] at h
      cases h
      exact List.mem_cons_self _ _
    · rw [lookupFS, if_neg he] at h
      exact List.mem_cons_of_mem _ (ih h)

theorem lookupFS_eq_some_of_mem {fs : FS} {p : List String} {v : FsNode}
    (hmem : (p, v) ∈ fs) (hnd : (fs.map Prod.fst).Nodup) : lookupFS fs p = some v := by
  induction fs with
  | nil => simp at hmem
  | cons e rest ih =>
    simp only [List.map_cons, List.nodup_cons] at hnd
    rcases List.mem_cons.mp hmem with heq | hmem2
    · rw [← heq]
      simp [lookupFS]
    · have hne : e.1 ≠ p := by
        intro he
        exact hnd.1 (by rw [he]; exact List.mem_map_of_mem Prod.fst hmem2)
      simp [lookupFS, hne, ih hmem2 hnd.2]

theorem lookupFS_filter (pred : List String → Bool) (fs : FS) (p : List String) :
    lookupFS (fs.filter (fun e => pred e.1)) p =
      if pred p then lookupFS fs p else none := by
  induction fs with
  | nil => simp [lookupFS]
  | cons e rest ih =>
    obtain ⟨k, w⟩ := e
    simp only [List.filter_cons]
    by_cases hpred : pred k
    · rw [if_pos (by simpa using hpred)]
      by_cases hk : k = p
      · subst hk
        simp [lookupFS, hpred]
      · rw [lookupFS, if_neg hk, ih]
        by_cases hpp : pred p
        · rw [if_pos hpp, if_pos hpp, lookupFS, if_neg hk]
        · rw [if_neg hpp, if_neg hpp]
    · rw [if_neg (by simpa using hpred)]
      by_cases hk : k = p
      · subst hk
        rw [ih, if_neg hpred, if_neg hpred]
      · rw [ih]
        by_cases hpp : pred p
        · rw [if_pos hpp, if_pos hpp, lookupFS, if_neg hk]
        · rw [if_neg hpp, if_neg hpp]

theorem lookupFS_map_keys (f : List String → List String) (fs : FS)
    {k k2 : List String} (h : ∀ e ∈ fs, (f e.1 = k2 ↔ e.1 = k)) :
    lookupFS (fs.map (fun e => (f e.1, e.2))) k2 = lookupFS fs k := by
  induction fs with
  | nil => simp [lookupFS]
  | cons e rest ih =>
    have he := h e (List.mem_cons_self e rest)
    by_cases hk : e.1 = k
    · have hf : f e.1 = k2 := he.mpr hk
      rw [List.map_cons, lookupFS, lookupFS, if_pos hf, if_pos hk]
    · have hf : f e.1 ≠ k2 := fun hc => hk (he.mp hc)
      rw [List.map_cons, lookupFS, lookupFS, if_neg hf, if_neg hk]
      exact ih (fun e2 he2 => h e2 (List.mem_cons_of_mem _ he2))

/-! ## Lemmas: the Python string order -/

theorem char_toNat_inj {a b : Char} (h : a.toNat = b.toNat) : a = b := by
  have ha := Char.ofNat_toNat a
  rw [h, Char.ofNat_toNat b] at ha
  exact ha.symm

theorem charsLe_total (a b : List Char) : charsLe a b = true ∨ charsLe b a = true := by
  induction a generalizing b with
  | nil => left; rfl
  | cons x xs ih =>
    cases b with
    | nil => right; rfl
    | cons y ys =>
      rcases Nat.lt_trichotomy x.toNat y.toNat with h | h | h
      · left
        simp [charsLe, h]
      · have hxy : x = y := char_toNat_inj h
        subst hxy
        rcases ih ys with h2 | h2
        · left
          simp [charsLe, h2]
        · right
          simp [charsLe, h2]
      · right
        simp [charsLe, h]

theorem charsLe_trans {a b c : List Char} (h1 : charsLe a b = true)
    (h2 : charsLe b c = true) : charsLe a c = true := by
  induction a generalizing b c with
  | nil => rfl
  | cons x xs ih =>
    cases b with
    | nil => simp [charsLe] at h1
    | cons y ys =>
      cases c with
      | nil => simp [charsLe] at h2
      | cons z zs =>
        rw [charsLe] at h1 h2 ⊢
        by_cases hxz : x.toNat < z.toNat
        · rw [if_pos hxz]
        · rw [if_neg hxz]
          by_cases hzx : z.toNat < x.toNat
          · exfalso
            by_cases hxy : x.toNat < y.toNat
            · by_cases hyz : y.toNat < z.toNat
              · omega
              · rw [if_neg hyz] at h2
                by_cases hzy : z.toNat < y.toNat
                · rw [if_pos hzy] at h2
                  exact absurd h2 (by simp)
                · omega
            · rw [if_neg hxy] at h1
              by_cases hyx : y.toNat < x.toNat
              · rw [if_pos hyx] at h1
                exact absurd h1 (by simp)
              · by_cases hyz : y.toNat < z.toNat
                · omega
                · rw [if_neg hyz] at h2
                  by_cases hzy : z.toNat < y.toNat
                  · rw [if_pos hzy] at h2
                    exact absurd h2 (by simp)
                  · omega
          · rw [if_neg hzx]
            by_cases hxy : x.toNat < y.toNat
            · exfalso
              rw [if_neg (by omega), if_pos (by omega)] at h2
              exact absurd h2 (by simp)
            · rw [if_neg hxy] at h1
              by_cases hyx : y.toNat < x.toNat
              · rw [if_pos hyx] at h1
                exact absurd h1 (by simp)
              · rw [if_neg hyx] at h1
                rw [if_neg (by omega), if_neg (by omega)] at h2
                exact ih h1 h2

theorem charsLe_antisymm {a b : List Char} (h1 : charsLe a b = true)
    (h2 : charsLe b a = true) : a = b := by
  induction a generalizing b with
  | nil =>
    cases b with
    | nil => rfl
    | cons y ys => simp [charsLe] at h2
  | cons x xs ih =>
    cases b with
    | nil => simp [charsLe] at h1
    | cons y ys =>
      rw [charsLe] at h1 h2
      by_cases hxy : x.toNat < y.toNat
      · rw [if_neg (by omega), if_pos hxy] at h2
        exact absurd h2 (by simp)
      · by_cases hyx : y.toNat < x.toNat
        · rw [if_neg (by omega), if_pos hyx] at h1
          exact absurd h1 (by simp)
        · rw [if_neg hxy, if_neg hyx] at h1
          rw [if_neg hyx, if_neg hxy] at h2
          rw [char_toNat_inj (show x.toNat = y.toNat by omega), ih h1 h2]

theorem strLe_total (a b : String) : strLe a b ∨ strLe b a :=
  charsLe_total a.data b.data

theorem strLe_trans {a b c : String} (h1 : strLe a b) (h2 : strLe b c) : strLe a c :=
  charsLe_trans h1 h2

theorem strLe_antisymm {a b : String} (h1 : strLe a b) (h2 : strLe b a) : a = b := by
  cases a with
  | mk da =>
    cases b with
    | mk db =>
      rw [charsLe_antisymm (a := da) (b := db) h1 h2]

instance : IsTotal String strLe := ⟨strLe_total⟩

instance : IsTrans String strLe := ⟨fun _ _ _ => strLe_trans⟩

instance : IsTotal (List String × FsNode) entryLe :=
  ⟨fun a b => strLe_total (posixOf a.1) (posixOf b.1)⟩

instance : IsTrans (List String × FsNode) entryLe :=
  ⟨fun _ _ _ => strLe_trans⟩

/-- Two sorted lists that are permutations of each other and have pairwise
distinct sort keys are equal: the reason a key-ordered enumeration does not
depend on filesystem iteration order. -/
theorem sorted_perm_eq_of_nodup_keys {α β : Type} (f : α → β) (r : β → β → Prop)
    (hanti : ∀ x y, r x y → r y x → x = y) :
    ∀ l1 l2 : List α, l1.Perm l2 → (l1.map f).Nodup →
      l1.Sorted (fun a b => r (f a) (f b)) → l2.Sorted (fun a b => r (f a) (f b)) →
      l1 = l2 := by
  intro l1
  induction l1 with
  | nil =>
    intro l2 hperm _ _ _
    exact (List.Perm.nil_eq hperm).symm ▸ rfl
  | cons a t1 ih =>
    intro l2 hperm hnd hs1 hs2
    cases l2 with
    | nil => exact absurd hperm.symm (by simp)
    | cons b t2 =>
      rw [List.sorted_cons] at hs1 hs2
      have hab : a = b := by
        have hbmem : b ∈ a :: t1 := hperm.mem_iff.mpr (List.mem_cons_self b t2)
        rcases List.mem_cons.mp hbmem with rfl | hbt1
        · rfl
        · have hamem : a ∈ b :: t2 := hperm.mem_iff.mp (List.mem_cons_self a t1)
          rcases List.mem_cons.mp hamem with rfl | hat2
          · rfl
          · have h1 : r (f a) (f b) := hs1.1 b hbt1
            have h2 : r (f b) (f a) := hs2.1 a hat2
            have hfab : f a = f b := hanti _ _ h1 h2
            rw [List.map_cons, List.nodup_cons] at hnd
            exact absurd (hfab ▸ List.mem_map_of_mem f hbt1) hnd.1
      subst hab
      have ht : t1 = t2 := by
        refine ih t2 (hperm.cons_inv) ?_ hs1.2 hs2.2
        rw [List.map_cons, List.nodup_cons] at hnd
        exact hnd.2
      rw [ht]

/-! ## Lemmas: parent-directory creation -/

theorem isFileAt_cons (k : List String) (v : FsNode) (fs : FS) (q : List String) :
    isFileAt ((k, v) :: fs) q =
      if k = q then (match v with | FsNode.file _ => true | FsNode.dir => false)
      else isFileAt fs q := by
  by_cases h : k = q
  · rw [if_pos h]
    unfold isFileAt
    rw [lookupFS, if_pos h]
    cases v <;> rfl
  · rw [if_neg h]
    unfold isFileAt
    rw [lookupFS, if_neg h]

theorem mkdirP_ok_lookup {segs : List String} :
    ∀ {fs fs2 : FS} {pre : List String}, mkdirP fs pre segs = Except.ok fs2 →
      ∀ q, lookupFS fs2 q = lookupFS fs q ∨
        (lookupFS fs q = none ∧ lookupFS fs2 q = some FsNode.dir ∧
          pre.length < q.length ∧ q.length ≤ pre.length + segs.length) := by
  induction segs with
  | nil =>
    intro fs fs2 pre h q
    rw [mkdirP] at h
    cases h
    left
    rfl
  | cons s rest ih =>
    intro fs fs2 pre h q
    rw [mkdirP] at h
    rcases hl : lookupFS fs (pre ++ [s]) with _ | v
    · rw [hl] at h
      rcases ih h q with heq | ⟨h0, h1, h2, h3⟩
      · by_cases hq : pre ++ [s] = q
        · subst hq
          right
          rw [lookupFS, if_pos rfl] at heq
          have hlen : (pre ++ [s]).length = pre.length + 1 := by simp
          refine ⟨hl, heq, by omega, by simp only [List.length_cons]; omega⟩
        · rw [lookupFS, if_neg hq] at heq
          left
          exact heq
      · rw [lookupFS] at h0
        by_cases hq : pre ++ [s] = q
        · simp [if_pos hq] at h0
        · rw [if_neg hq] at h0
          right
          have hlen : (pre ++ [s]).length = pre.length + 1 := by simp
          rw [hlen] at h2 h3
          refine ⟨h0, h1, by omega, by simp only [List.length_cons]; omega⟩
    · cases v with
      | dir =>
        rw [hl] at h
        rcases ih h q with heq | ⟨h0, h1, h2, h3⟩
        · left
          exact heq
        · right
          have hlen : (pre ++ [s]).length = pre.length + 1 := by simp
          rw [hlen] at h2 h3
          refine ⟨h0, h1, by omega, by simp only [List.length_cons]; omega⟩
      | file b =>
        rw [hl] at h
        cases h

theorem mkdirP_ok_of_noFile {segs : List String} :
    ∀ {fs : FS} {pre : List String},
      (∀ q, isInitOf pre q = true → isInitOf q (pre ++ segs) = true →
        pre.length < q.length → isFileAt fs q = false) →
      ∃ fs2, mkdirP fs pre segs = Except.ok fs2 := by
  induction segs with
  | nil =>
    intro fs pre _
    exact ⟨fs, rfl⟩
  | cons s rest ih =>
    intro fs pre hyp
    have hq1 : isFileAt fs (pre ++ [s]) = false := by
      refine hyp (pre ++ [s]) (isInitOf_append pre [s]) ?_ (by simp)
      have : (pre ++ [s]) ++ rest = pre ++ (s :: rest) := by simp
      rw [← this]
      exact isInitOf_append _ _
    rw [mkdirP]
    rcases hl : lookupFS fs (pre ++ [s]) with _ | v
    · refine ih ?_
      intro q hq hq2 hq3
      rw [isFileAt_cons]
      by_cases he : pre ++ [s] = q
      · rw [if_pos he]
      · rw [if_neg he]
        refine hyp q (isInitOf_trans (isInitOf_append pre [s]) hq) ?_ ?_
        · have : (pre ++ [s]) ++ rest = pre ++ (s :: rest) := by simp
          rw [← this]
          exact hq2
        · have hle : (pre ++ [s]).length ≤ q.length := isInitOf_length hq
          have hlen : (pre ++ [s]).length = pre.length + 1 := by simp
          omega
    · cases v with
      | dir =>
        refine ih ?_
        intro q hq hq2 hq3
        refine hyp q (isInitOf_trans (isInitOf_append pre [s]) hq) ?_ ?_
        · have : (pre ++ [s]) ++ rest = pre ++ (s :: rest) := by simp
          rw [← this]
          exact hq2
        · have hle : (pre ++ [s]).length ≤ q.length := isInitOf_length hq
          have hlen : (pre ++ [s]).length = pre.length + 1 := by simp
          omega
      | file b =>
        rw [isFileAt, hl] at hq1
        cases hq1

theorem mkdirP_noop {segs : List String} :
    ∀ {fs : FS} {pre : List String},
      (∀ q, isInitOf pre q = true → isInitOf q (pre ++ segs) = true →
        pre.length < q.length → lookupFS fs q = some FsNode.dir) →
      mkdirP fs pre segs = Except.ok fs := by
  induction segs with
  | nil =>
    intro fs pre _
    rfl
  | cons s rest ih =>
    intro fs pre hyp
    have hq1 : lookupFS fs (pre ++ [s]) = some FsNode.dir := by
      refine hyp (pre ++ [s]) (isInitOf_append pre [s]) ?_ (by simp)
      have : (pre ++ [s]) ++ rest = pre ++ (s :: rest) := by simp
      rw [← this]
      exact isInitOf_append _ _
    rw [mkdirP, hq1]
    refine ih ?_
    intro q hq hq2 hq3
    refine hyp q (isInitOf_trans (isInitOf_append pre [s]) hq) ?_ ?_
    · have : (pre ++ [s]) ++ rest = pre ++ (s :: rest) := by simp
      rw [← this]
      exact hq2
    · have hle : (pre ++ [s]).length ≤ q.length := isInitOf_length hq
      have hlen : (pre ++ [s]).length = pre.length + 1 := by simp
      omega

/-! ## Lemmas: UTF-8 roundtrip -/

theorem charValidRanges (c : Char) :
    c.toNat < 0xD800 ∨ (0xDFFF < c.toNat ∧ c.toNat < 0x110000) :=
  c.valid

theorem utf8EncodeChar_length_pos (c : Char) : 0 < (utf8EncodeChar c).length := by
  rw [utf8EncodeChar]
  by_cases h1 : c.toNat < 0x80
  · rw [if_pos h1]
    simp
  · rw [if_neg h1]
    by_cases h2 : c.toNat < 0x800
    · rw [if_pos h2]
      simp
    · rw [if_neg h2]
      by_cases h3 : c.toNat < 0x10000
      · rw [if_pos h3]
        simp
      · rw [if_neg h3]
        simp

theorem utf8DecodeOne_encodeChar (c : Char) (l : List Nat) :
    utf8DecodeOne (utf8EncodeChar c ++ l) = some (c.toNat, l) := by
  have hv := charValidRanges c
  rw [utf8EncodeChar]
  by_cases h1 : c.toNat < 0x80
  · rw [if_pos h1]
    simp only [List.cons_append, List.nil_append]
    rw [utf8DecodeOne, if_pos h1]
  · rw [if_neg h1]
    by_cases h2 : c.toNat < 0x800
    · rw [if_pos h2]
      simp only [List.cons_append, List.nil_append]
      rw [utf8DecodeOne, if_neg (by omega), if_neg (by omega), if_pos (by omega)]
      rw [utf8Cont2, if_pos (by omega)]
      have hval : (0xC0 + c.toNat / 64 - 0xC0) * 64 + (0x80 + c.toNat % 64 - 0x80) =
          c.toNat := by omega
      rw [hval]
    · rw [if_neg h2]
      by_cases h3 : c.toNat < 0x10000
      · rw [if_pos h3]
        simp only [List.cons_append, List.nil_append]
        rw [utf8DecodeOne, if_neg (by omega), if_neg (by omega), if_neg (by omega),
          if_pos (by omega)]
        rw [utf8Cont3, if_pos (by refine ⟨by omega, by omega, by omega, by omega⟩)]
        have hval : (0xE0 + c.toNat / 4096 - 0xE0) * 4096 +
            (0x80 + c.toNat / 64 % 64 - 0x80) * 64 + (0x80 + c.toNat % 64 - 0x80) =
            c.toNat := by omega
        rw [hval]
      · rw [if_neg h3]
        simp only [List.cons_append, List.nil_append]
        rw [utf8DecodeOne, if_neg (by omega), if_neg (by omega), if_neg (by omega),
          if_neg (by omega), if_pos (by omega)]
        rw [utf8Cont4, if_pos (by refine ⟨by omega, by omega, by omega, by omega, by omega⟩)]
        have hval : (0xF0 + c.toNat / 262144 - 0xF0) * 262144 +
            (0x80 + c.toNat / 4096 % 64 - 0x80) * 4096 +
            (0x80 + c.toNat / 64 % 64 - 0x80) * 64 + (0x80 + c.toNat % 64 - 0x80) =
            c.toNat := by omega
        rw [hval]

theorem utf8DecodeLoop_encodeList (cs : List Char) :
    ∀ fuel, (utf8EncodeList cs).length ≤ fuel →
      utf8DecodeLoop fuel (utf8EncodeList cs) = some cs := by
  induction cs with
  | nil =>
    intro fuel _
    cases fuel <;> rfl
  | cons c cs ih =>
    intro fuel hf
    rw [utf8EncodeList] at hf ⊢
    have hpos : 0 < (utf8EncodeChar c).length := utf8EncodeChar_length_pos c
    rw [List.length_append] at hf
    cases fuel with
    | zero => omega
    | succ f =>
      obtain ⟨b, bs, hb⟩ :
          ∃ b bs, utf8EncodeChar c ++ utf8EncodeList cs = b :: bs := by
        cases hE : utf8EncodeChar c with
        | nil =>
          rw [hE] at hpos
          simp at hpos
        | cons x xs => exact ⟨x, xs ++ utf8EncodeList cs, rfl⟩
      rw [hb, utf8DecodeLoop, ← hb, utf8DecodeOne_encodeChar]
      show (utf8DecodeLoop f (utf8EncodeList cs)).map (fun cs2 => Char.ofNat c.toNat :: cs2) =
        some (c :: cs)
      rw [ih f (by omega), Char.ofNat_toNat]
      rfl

/-- The UTF-8 write/read roundtrip at the `str` level. -/
theorem utf8DecodeString_encode (s : String) :
    utf8DecodeString (utf8Encode s) = some s := by
  rw [utf8DecodeString, utf8Encode, utf8DecodeChars,
    utf8DecodeLoop_encodeList s.data _ (Nat.le_refl _)]
  cases s
  rfl

/-! ## Lemmas: path guard unfolding -/

theorem coerce_false_ok {p v : String} (h : coerceRelativePath p false = Except.ok v) :
    v ≠ "." ∧ coerceRelativePath p true = Except.ok v := by
  simp only [coerceRelativePath] at h ⊢
  by_cases h1 : stripString p = "" ∨ stripString p = "."
  · rw [if_pos h1] at h
    exact absurd h (by simp)
  · rw [if_neg h1] at h ⊢
    by_cases h2 : isAbsolutePath (stripString p) = true
    · rw [if_pos h2] at h
      exact absurd h (by simp)
    · rw [if_neg h2] at h ⊢
      by_cases h3 : hasDrivePrefixQualifier (stripString p) = true
      · rw [if_pos h3] at h
        exact absurd h (by simp)
      · rw [if_neg h3] at h ⊢
        cases h
        exact ⟨fun hc => h1 (Or.inr hc), rfl⟩

theorem resolve_error_of_escape {root : List String} {p v : String}
    (hc : coerceRelativePath p false = Except.ok v)
    (hesc : isInitOf root (normalizeSegs root (segsOf v)) = false) :
    ∀ ar, resolveWorkspacePath root p ar = Except.error WsError.validation := by
  obtain ⟨hvdot, hctrue⟩ := coerce_false_ok hc
  intro ar
  cases ar with
  | false =>
    simp only [resolveWorkspacePath, hc]
    rw [if_neg hvdot, if_neg (by rw [hesc]; exact Bool.false_ne_true)]
  | true =>
    simp only [resolveWorkspacePath, hctrue]
    rw [if_neg hvdot, if_neg (by rw [hesc]; exact Bool.false_ne_true)]

theorem existsPath_of_isDirAt {fs : FS} {p : List String} (h : isDirAt fs p = true) :
    existsPath fs p = true := by
  by_cases hp : p = []
  · simp [existsPath, hp]
  · rw [isDirAt] at h
    rw [existsPath]
    rcases hl : lookupFS fs p with _ | v
    · rw [hl] at h
      simp [hp] at h
    · simp [hl]

/-! ## Claims -/

/-- C2: every absolute path and every drive-qualified path is rejected with
`ValidationError` by `_coerce_relative_path` itself — before the path is
joined to any root or resolved against any filesystem state (the rejection
is uniform in `root` and `fs` and mutates nothing) — and consequently by
every operation taking the path. -/
theorem absolute_or_drive_rejected_before_resolution (p : String)
    (h : isAbsolutePath (stripString p) = true ∨
      hasDrivePrefixQualifier (stripString p) = true) :
    (∀ ar, coerceRelativePath p ar = Except.error WsError.validation) ∧
    (∀ root ar, resolveWorkspacePath root p ar = Except.error WsError.validation) ∧
    (∀ root fs, read_text_file root p fs = (Except.error WsError.validation, fs)) ∧
    (∀ root c fs, write_text_file root p c fs = (Except.error WsError.validation, fs)) ∧
    (∀ root fs, create_folder root p fs = (Except.error WsError.validation, fs)) ∧
    (∀ root rec fs, delete_path root p rec fs = (Except.error WsError.validation, fs)) ∧
    (∀ root b ow fs, rename_path root p b ow fs = (Except.error WsError.validation, fs)) ∧
    (∀ root fs, list_relative_files root p fs = (Except.error WsError.validation, fs)) := by
  have hne : stripString p ≠ "" ∧ stripString p ≠ "." := by
    constructor <;> intro he <;> rw [he] at h <;> exact absurd h (by decide)
  have hco : ∀ ar, coerceRelativePath p ar = Except.error WsError.validation := by
    intro ar
    simp only [coerceRelativePath]
    rw [if_neg (fun hc => hc.elim hne.1 hne.2)]
    rcases h with habs | hdrive
    · rw [if_pos habs]
    · by_cases habs2 : isAbsolutePath (stripString p) = true
      · rw [if_pos habs2]
      · rw [if_neg habs2, if_pos hdrive]
  have hres : ∀ root ar, resolveWorkspacePath root p ar = Except.error WsError.validation := by
    intro root ar
    simp only [resolveWorkspacePath, hco ar]
  refine ⟨hco, hres, ?_, ?_, ?_, ?_, ?_, ?_⟩
  · intro root fs
    simp only [read_text_file, hres root false]
  · intro root c fs
    simp only [write_text_file]
    by_cases hlen : c.length > MAX_EDITABLE_FILE_CHARS
    · rw [if_pos hlen]
    · rw [if_neg hlen]
      simp only [hres root false]
  · intro root fs
    simp only [create_folder, hres root false]
  · intro root rec fs
    simp only [delete_path, hres root false]
  · intro root b ow fs
    simp only [rename_path, hres root false]
  · intro root fs
    simp only [list_relative_files, hres root true]

/-- C2 witness: the absolute path `/etc/passwd` is rejected everywhere. -/
theorem absolute_or_drive_rejected_witness :
    (isAbsolutePath (stripString "/etc/passwd") = true ∨
      hasDrivePrefixQualifier (stripString "/etc/passwd") = true) ∧
    coerceRelativePath "/etc/passwd" false = Except.error WsError.validation ∧
    read_text_file ["r"] "/etc/passwd" [] = (Except.error WsError.validation, []) := by
  refine ⟨Or.inl (by decide), ?_, ?_⟩
  · exact (absolute_or_drive_rejected_before_resolution "/etc/passwd"
      (Or.inl (by decide))).1 false
  · exact (absolute_or_drive_rejected_before_resolution "/etc/passwd"
      (Or.inl (by decide))).2.2.1 ["r"] []

/-- C1 (amended): every relative path that resolves to a location outside
the session root fails every operation with `ValidationError` and performs
no filesystem mutation. -/
theorem escaping_path_rejected_without_mutation (root : List String) (p v : String)
    (hc : coerceRelativePath p false = Except.ok v)
    (hesc : isInitOf root (normalizeSegs root (segsOf v)) = false) :
    (∀ ar, resolveWorkspacePath root p ar = Except.error WsError.validation) ∧
    (∀ fs, read_text_file root p fs = (Except.error WsError.validation, fs)) ∧
    (∀ c fs, c.length ≤ MAX_EDITABLE_FILE_CHARS →
      write_text_file root p c fs = (Except.error WsError.validation, fs)) ∧
    (∀ fs, create_folder root p fs = (Except.error WsError.validation, fs)) ∧
    (∀ rec fs, delete_path root p rec fs = (Except.error WsError.validation, fs)) ∧
    (∀ b ow fs, rename_path root p b ow fs = (Except.error WsError.validation, fs)) ∧
    (∀ fs, list_relative_files root p fs = (Except.error WsError.validation, fs)) := by
  have hres := resolve_error_of_escape hc hesc
  refine ⟨hres, ?_, ?_, ?_, ?_, ?_, ?_⟩
  · intro fs
    simp only [read_text_file, hres false]
  · intro c fs hlen
    simp only [write_text_file]
    rw [if_neg (by omega)]
    simp only [hres false]
  · intro fs
    simp only [create_folder, hres false]
  · intro rec fs
    simp only [delete_path, hres false]
  · intro b ow fs
    simp only [rename_path, hres false]
  · intro fs
    simp only [list_relative_files, hres true]

/-- C1 counterexample: `a/../b` contains a `..` segment, yet it resolves
back inside the root and `create_folder` succeeds on it — it even mutates
the filesystem by creating `b`. -/
theorem dotdot_segment_accepted_inside_root :
    create_folder ["r"] "a/../b" ([] : FS) = (Except.ok "b", [(["b"], FsNode.dir)]) := by
  decide

/-- C1 witness: `../x` escapes the root and every operation rejects it
without mutation. -/
theorem escaping_path_rejected_witness :
    coerceRelativePath "../x" false = Except.ok "../x" ∧
    isInitOf ["r"] (normalizeSegs ["r"] (segsOf "../x")) = false ∧
    read_text_file ["r"] "../x" [] = (Except.error WsError.validation, []) ∧
    create_folder ["r"] "../x" [] = (Except.error WsError.validation, []) := by
  refine ⟨by decide, by decide, ?_, ?_⟩
  · exact (escaping_path_rejected_without_mutation ["r"] "../x" "../x"
      (by decide) (by decide)).2.1 []
  · exact (escaping_path_rejected_without_mutation ["r"] "../x" "../x"
      (by decide) (by decide)).2.2.2.1 []

/-- C6: `delete_path` fails `NotFound` on an absent path; on a directory
with children it fails `Conflict` without `recursive` and with `recursive`
succeeds, after which the directory and all of its descendants no longer
exist.  (`rel ≠ []` keeps the target below the session root, which the
model keeps implicit.) -/
theorem delete_path_spec (root : List String) (p : String) (fs : FS) (rel : List String)
    (hr : resolveWorkspacePath root p false = Except.ok rel) :
    (∀ rec, existsPath fs rel = false →
      delete_path root p rec fs = (Except.error WsError.notFound, fs)) ∧
    (isDirAt fs rel = true → hasChildren fs rel = true →
      delete_path root p false fs = (Except.error WsError.conflict, fs)) ∧
    (isDirAt fs rel = true → hasChildren fs rel = true → rel ≠ [] →
      ∃ fs2, delete_path root p true fs = (Except.ok (cleanedReturnPath p), fs2) ∧
        existsPath fs2 rel = false ∧
        ∀ q, isInitOf rel q = true → lookupFS fs2 q = none) := by
  refine ⟨?_, ?_, ?_⟩
  · intro rec hex
    simp only [delete_path, hr]
    rw [if_pos hex]
  · intro hdir hch
    have hex := existsPath_of_isDirAt hdir
    simp only [delete_path, hr]
    rw [if_neg (by rw [hex]; decide), if_pos hdir,
      if_pos ⟨hch, by trivial⟩]
  · intro hdir hch hrel
    have hex := existsPath_of_isDirAt hdir
    have hlq : ∀ q, isInitOf rel q = true →
        lookupFS (fs.filter (fun e => !(isInitOf rel e.1))) q = none := by
      intro q hq
      rw [lookupFS_filter (fun k => !(isInitOf rel k)) fs q, if_neg (by rw [hq]; simp)]
    refine ⟨fs.filter (fun e => !(isInitOf rel e.1)), ?_, ?_, hlq⟩
    · simp only [delete_path, hr]
      rw [if_neg (by rw [hex]; decide), if_pos hdir,
        if_neg (by simp), if_pos hch]
    · rw [existsPath, hlq rel (isInitOf_refl rel)]
      simp [hrel]

/-- C6 witness: a concrete directory with one child. -/
theorem delete_path_spec_witness :
    resolveWorkspacePath ["r"] "d" false = Except.ok ["d"] ∧
    delete_path ["r"] "gone" false ([(["d"], FsNode.dir), (["d", "f"], FsNode.file [])] : FS) =
      (Except.error WsError.notFound,
        [(["d"], FsNode.dir), (["d", "f"], FsNode.file [])]) ∧
    delete_path ["r"] "d" false [(["d"], FsNode.dir), (["d", "f"], FsNode.file [])] =
      (Except.error WsError.conflict,
        [(["d"], FsNode.dir), (["d", "f"], FsNode.file [])]) ∧
    ∃ fs2, delete_path ["r"] "d" true [(["d"], FsNode.dir), (["d", "f"], FsNode.file [])] =
      (Except.ok (cleanedReturnPath "d"), fs2) ∧
      existsPath fs2 ["d"] = false ∧
      ∀ q, isInitOf ["d"] q = true → lookupFS fs2 q = none := by
  refine ⟨by decide, ?_, ?_, ?_⟩
  · exact (delete_path_spec ["r"] "gone" [(["d"], FsNode.dir), (["d", "f"], FsNode.file [])]
      ["gone"] (by decide)).1 false (by decide)
  · exact (delete_path_spec ["r"] "d" [(["d"], FsNode.dir), (["d", "f"], FsNode.file [])]
      ["d"] (by decide)).2.1 (by decide) (by decide)
  · exact (delete_path_spec ["r"] "d" [(["d"], FsNode.dir), (["d", "f"], FsNode.file [])]
      ["d"] (by decide)).2.2 (by decide) (by decide) (by decide)

/-- C10: when `delete_path` raises `Conflict` on a non-empty directory
without `recursive=true`, the returned filesystem is exactly the input one:
the directory and all of its descendants remain unchanged. -/
theorem delete_conflict_no_mutation (root : List String) (p : String) (fs : FS)
    (rel : List String) (hr : resolveWorkspacePath root p false = Except.ok rel)
    (hdir : isDirAt fs rel = true) (hch : hasChildren fs rel = true) :
    delete_path root p false fs = (Except.error WsError.conflict, fs) := by
  have hex := existsPath_of_isDirAt hdir
  simp only [delete_path, hr]
  rw [if_neg (by rw [hex]; decide), if_pos hdir, if_pos ⟨hch, by trivial⟩]

/-- C10 witness. -/
theorem delete_conflict_no_mutation_witness :
    isDirAt [(["d"], FsNode.dir), (["d", "f"], FsNode.file [7])] ["d"] = true ∧
    hasChildren [(["d"], FsNode.dir), (["d", "f"], FsNode.file [7])] ["d"] = true ∧
    delete_path ["r"] "d" false [(["d"], FsNode.dir), (["d", "f"], FsNode.file [7])] =
      (Except.error WsError.conflict,
        [(["d"], FsNode.dir), (["d", "f"], FsNode.file [7])]) := by
  refine ⟨by decide, by decide, ?_⟩
  exact delete_conflict_no_mutation ["r"] "d"
    [(["d"], FsNode.dir), (["d", "f"], FsNode.file [7])] ["d"] (by decide) (by decide)
    (by decide)

/-! ## Lemmas: flat text listing -/

theorem flatFold_skip_mem {p : List String} {b : List Nat} :
    ∀ l : FS, (p, FsNode.file b) ∈ l → utf8DecodeString b = none →
      posixOf p ∈ (flatFold l).2 := by
  intro l
  induction l with
  | nil => intro h; simp at h
  | cons e rest ih =>
    intro hmem hdec
    obtain ⟨pp, nn⟩ := e
    rcases List.mem_cons.mp hmem with heq | hm
    · cases heq
      rw [flatFold, hdec]
      exact List.mem_cons_self _ _
    · cases nn with
      | dir =>
        rw [flatFold]
        exact ih hm hdec
      | file b2 =>
        rw [flatFold]
        rcases hd2 : utf8DecodeString b2 with _ | s
        · exact List.mem_cons_of_mem _ (ih hm hdec)
        · exact ih hm hdec

theorem flatFold_map_mem {s : String} :
    ∀ l : FS, s ∈ (flatFold l).1.map Prod.fst →
      ∃ e ∈ l, ∃ bb, e.2 = FsNode.file bb ∧ (utf8DecodeString bb).isSome = true ∧
        posixOf e.1 = s := by
  intro l
  induction l with
  | nil => intro h; simp [flatFold] at h
  | cons e rest ih =>
    intro hmem
    obtain ⟨pp, nn⟩ := e
    cases nn with
    | dir =>
      rw [flatFold] at hmem
      obtain ⟨e2, he2, h2⟩ := ih hmem
      exact ⟨e2, List.mem_cons_of_mem _ he2, h2⟩
    | file b2 =>
      rw [flatFold] at hmem
      rcases hd2 : utf8DecodeString b2 with _ | s2
      · rw [hd2] at hmem
        obtain ⟨e2, he2, h2⟩ := ih hmem
        exact ⟨e2, List.mem_cons_of_mem _ he2, h2⟩
      · rw [hd2] at hmem
        rw [List.map_cons] at hmem
        rcases List.mem_cons.mp hmem with heq | hm
        · exact ⟨(pp, FsNode.file b2), List.mem_cons_self _ _, b2, rfl,
            by rw [hd2]; rfl, heq.symm⟩
        · obtain ⟨e2, he2, h2⟩ := ih hm
          exact ⟨e2, List.mem_cons_of_mem _ he2, h2⟩

/-- C8: every regular file whose bytes fail UTF-8 decoding is omitted from
the content map of `list_flat_text_files` and appears by path in the
binary-skip list; the function is total, so the call never raises for such
a file.  (Distinct on-disk files have distinct paths: the `Nodup`
hypothesis.) -/
theorem flat_text_files_skip_binary (fs : FS) (p : List String) (b : List Nat)
    (hmem : (p, FsNode.file b) ∈ fs)
    (hdec : utf8DecodeString b = none)
    (hnd : ((fs.filter isFileEntry).map (fun e => posixOf e.1)).Nodup) :
    posixOf p ∈ (list_flat_text_files fs).2 ∧
      posixOf p ∉ (list_flat_text_files fs).1.map Prod.fst := by
  have hmemf : (p, FsNode.file b) ∈ fs.filter isFileEntry :=
    List.mem_filter.mpr ⟨hmem, rfl⟩
  have hperm : (sortedFileEntries fs).Perm (fs.filter isFileEntry) :=
    List.perm_insertionSort entryLe (fs.filter isFileEntry)
  have hmems : (p, FsNode.file b) ∈ sortedFileEntries fs := hperm.mem_iff.mpr hmemf
  constructor
  · exact flatFold_skip_mem (sortedFileEntries fs) hmems hdec
  · intro hin
    obtain ⟨e2, he2, bb, hbb, hsome, hpos⟩ := flatFold_map_mem (sortedFileEntries fs) hin
    have he2f : e2 ∈ fs.filter isFileEntry := hperm.mem_iff.mp he2
    have : e2 = (p, FsNode.file b) :=
      List.inj_on_of_nodup_map hnd he2f hmemf hpos
    rw [this] at hbb
    cases hbb
    rw [hdec] at hsome
    cases hsome

/-- C8 witness. -/
theorem flat_text_files_skip_binary_witness :
    ((["bin.dat"], FsNode.file [255, 254, 253]) ∈
      ([(["bin.dat"], FsNode.file [255, 254, 253]), (["a.txt"], FsNode.file [104])] : FS)) ∧
    utf8DecodeString [255, 254, 253] = none ∧
    posixOf ["bin.dat"] ∈
      (list_flat_text_files
        [(["bin.dat"], FsNode.file [255, 254, 253]), (["a.txt"], FsNode.file [104])]).2 ∧
    posixOf ["bin.dat"] ∉
      (list_flat_text_files
        [(["bin.dat"], FsNode.file [255, 254, 253]), (["a.txt"], FsNode.file [104])]).1.map
        Prod.fst := by
  refine ⟨by decide, by decide, ?_⟩
  exact flat_text_files_skip_binary
    [(["bin.dat"], FsNode.file [255, 254, 253]), (["a.txt"], FsNode.file [104])]
    ["bin.dat"] [255, 254, 253] (by decide) (by decide) (by decide)

/-! ## Lemmas: writing -/

theorem lookupFS_overwrite_self {fs : FS} {p : List String} (n : FsNode)
    (h : (lookupFS fs p).isSome = true) :
    lookupFS (fs.map (fun e => if e.1 = p then (p, n) else e)) p = some n := by
  induction fs with
  | nil => simp [lookupFS] at h
  | cons e rest ih =>
    by_cases he : e.1 = p
    · rw [List.map_cons, if_pos he, lookupFS, if_pos rfl]
    · rw [lookupFS, if_neg he] at h
      rw [List.map_cons, if_neg he, lookupFS, if_neg he]
      exact ih h

/-- C3 (amended): for every guard-accepted relative path `p` that does not
resolve to an existing directory (or the root itself) and has no existing
regular file at a proper ancestor of its resolution, and every string `c`
with `len(c) ≤ 400000`, `write_text_file` succeeds and an immediately
following `read_text_file` returns exactly `c`. -/
theorem write_then_read_roundtrip (root : List String) (p c : String) (fs : FS)
    (rel : List String)
    (hr : resolveWorkspacePath root p false = Except.ok rel)
    (hnd : isDirAt fs rel = false)
    (hanc : ∀ q, isInitOf q rel = true → q ≠ rel → isFileAt fs q = false)
    (hlen : c.length ≤ MAX_EDITABLE_FILE_CHARS) :
    ∃ fs2, write_text_file root p c fs = (Except.ok (posixOf rel), fs2) ∧
      read_text_file root p fs2 = (Except.ok c, fs2) := by
  have hrelne : rel ≠ [] := by
    intro h
    rw [h] at hnd
    simp [isDirAt] at hnd
  have hrellen : 0 < rel.length := by
    cases rel with
    | nil => exact absurd rfl hrelne
    | cons a as => simp
  obtain ⟨fs1, hmk⟩ : ∃ fs1, mkdirP fs [] rel.dropLast = Except.ok fs1 := by
    refine mkdirP_ok_of_noFile ?_
    intro q hq0 hq1 hq2
    rw [List.nil_append] at hq1
    have hqrel : isInitOf q rel = true := isInitOf_dropLast hq1
    refine hanc q hqrel ?_
    intro he
    subst he
    have := isInitOf_length hq1
    rw [List.length_dropLast] at this
    omega
  have hpres : lookupFS fs1 rel = lookupFS fs rel := by
    rcases mkdirP_ok_lookup hmk rel with heq | ⟨_, _, _, h3⟩
    · exact heq
    · rw [List.length_nil, List.length_dropLast] at h3
      omega
  have hnotdir : lookupFS fs rel ≠ some FsNode.dir := by
    intro hc
    rw [isDirAt, hc] at hnd
    simp at hnd
  rcases hl : lookupFS fs rel with _ | v
  · -- fresh file
    have hwb : writeBytes fs1 rel (utf8Encode c) =
        Except.ok ((rel, FsNode.file (utf8Encode c)) :: fs1) := by
      rw [writeBytes, if_neg hrelne, hpres, hl]
    have hlook2 : lookupFS ((rel, FsNode.file (utf8Encode c)) :: fs1) rel =
        some (FsNode.file (utf8Encode c)) := by
      rw [lookupFS, if_pos rfl]
    refine ⟨(rel, FsNode.file (utf8Encode c)) :: fs1, ?_, ?_⟩
    · simp only [write_text_file]
      rw [if_neg (by omega)]
      simp only [hr, hmk, hwb]
    · simp only [read_text_file, hr, hlook2, utf8DecodeString_encode c]
  · -- overwrite
    cases v with
    | dir => exact absurd hl hnotdir
    | file b0 =>
      have hsome : (lookupFS fs1 rel).isSome = true := by
        rw [hpres, hl]
        rfl
      have hwb : writeBytes fs1 rel (utf8Encode c) =
          Except.ok (fs1.map (fun e => if e.1 = rel then (rel, FsNode.file (utf8Encode c))
            else e)) := by
        rw [writeBytes, if_neg hrelne, hpres, hl]
      have hlook2 : lookupFS (fs1.map (fun e => if e.1 = rel then
          (rel, FsNode.file (utf8Encode c)) else e)) rel =
          some (FsNode.file (utf8Encode c)) :=
        lookupFS_overwrite_self _ hsome
      refine ⟨fs1.map (fun e => if e.1 = rel then (rel, FsNode.file (utf8Encode c)) else e),
        ?_, ?_⟩
      · simp only [write_text_file]
        rw [if_neg (by omega)]
        simp only [hr, hmk, hwb]
      · simp only [read_text_file, hr, hlook2, utf8DecodeString_encode c]

/-- C3 counterexample: `d` is guard-accepted but names an existing
directory, and `write_text_file` fails (`IsADirectoryError`) instead of
succeeding. -/
theorem write_text_to_directory_fails :
    resolveWorkspacePath ["r"] "d" false = Except.ok ["d"] ∧
    (write_text_file ["r"] "d" "hi" [(["d"], FsNode.dir)]).1 =
      Except.error WsError.osError := by
  constructor <;> decide

/-- C3 witness: write then read of `"hello"` at `a/b.txt` in an empty
workspace. -/
theorem write_then_read_roundtrip_witness :
    resolveWorkspacePath ["r"] "a/b.txt" false = Except.ok ["a", "b.txt"] ∧
    isDirAt [] ["a", "b.txt"] = false ∧
    "hello".length ≤ MAX_EDITABLE_FILE_CHARS ∧
    ∃ fs2, write_text_file ["r"] "a/b.txt" "hello" [] =
        (Except.ok (posixOf ["a", "b.txt"]), fs2) ∧
      read_text_file ["r"] "a/b.txt" fs2 = (Except.ok "hello", fs2) := by
  refine ⟨by decide, by decide, by decide, ?_⟩
  exact write_then_read_roundtrip ["r"] "a/b.txt" "hello" [] ["a", "b.txt"]
    (by decide) (by decide) (fun q _ _ => rfl) (by decide)

/-! ## Lemmas: rename -/

theorem isInitOf_of_append_right {a b c : List String}
    (h : isInitOf a (b ++ c) = true) (hl : a.length ≤ b.length) :
    isInitOf a b = true := by
  rw [isInitOf_iff] at h
  obtain ⟨r, hr⟩ := h
  have htake : (b ++ c).take a.length = a := by
    rw [hr, List.take_left]
  rw [List.take_append_of_le_length hl] at htake
  rw [isInitOf_iff]
  refine ⟨b.drop a.length, ?_⟩
  conv_lhs => rw [← List.take_append_drop a.length b]
  rw [htake]

theorem isInitOf_strict_length {t k : List String} (h : isInitOf t k = true)
    (hne : k ≠ t) : t.length < k.length := by
  have hle := isInitOf_length h
  rcases Nat.lt_or_ge t.length k.length with hlt | hge
  · exact hlt
  · exact absurd (eq_of_isInitOf_of_length h hge).symm hne

theorem WF_lookup_nil {fs : FS} (hwf : WFfs fs) : lookupFS fs [] = none := by
  rw [lookupFS_eq_none_iff]
  intro e he
  exact (hwf.2 e he).1

theorem WF_no_descendant_of_file {fs : FS} (hwf : WFfs fs) {t k : List String}
    {bb : List Nat} (hf : lookupFS fs t = some (FsNode.file bb))
    (hk : isInitOf t k = true) (hne : k ≠ t) : lookupFS fs k = none := by
  rw [lookupFS_eq_none_iff]
  intro e he hek
  have ht0 : t ≠ [] := by
    intro h0
    rw [h0, WF_lookup_nil hwf] at hf
    cases hf
  have htlen : 0 < t.length := by
    cases t with
    | nil => exact absurd rfl ht0
    | cons x xs => simp
  have hklen : t.length < k.length := isInitOf_strict_length hk hne
  have htake : k.take t.length = t := by
    rw [isInitOf_iff] at hk
    obtain ⟨r, hr⟩ := hk
    rw [hr, List.take_left]
  have hdir := (hwf.2 e he).2 t.length (by rw [hek]; exact hklen) htlen
  rw [hek, htake, hf] at hdir
  cases hdir

theorem rename_overwrite_case (root : List String) (a b : String) (fs : FS)
    (src tgt : List String)
    (hra : resolveWorkspacePath root a false = Except.ok src)
    (hrb : resolveWorkspacePath root b false = Except.ok tgt)
    (hwf : WFfs fs)
    (hsrc : existsPath fs src = true) (htgt : existsPath fs tgt = true)
    (hst : isInitOf src tgt = false) (hts : isInitOf tgt src = false)
    (hsrcne : src ≠ [])
    (vt : FsNode) (hvt : lookupFS fs tgt = some vt)
    (fs1 : FS)
    (hfs1eq : (if isDirAt fs tgt = true then fs.filter (fun e => !(isInitOf tgt e.1))
      else fs.filter (fun e => decide (e.1 ≠ tgt))) = fs1)
    (hfs1 : ∀ k, lookupFS fs1 k = if isInitOf tgt k then none else lookupFS fs k)
    (hfs1mem : ∀ e ∈ fs1, isInitOf tgt e.1 = false) :
    ∃ fs2, rename_path root a b true fs = (Except.ok (posixOf tgt), fs2) ∧
      existsPath fs2 src = false ∧
      ∀ q, lookupFS fs2 (tgt ++ q) = lookupFS fs (src ++ q) := by
  have hmkd : mkdirP fs1 [] tgt.dropLast = Except.ok fs1 := by
    refine mkdirP_noop ?_
    intro q hq0 hq1 hq2
    rw [List.nil_append] at hq1
    have hqtgt : isInitOf q tgt = true := isInitOf_dropLast hq1
    have hqlen : q.length < tgt.length := by
      have := isInitOf_length hq1
      rw [List.length_dropLast] at this
      have htlen := isInitOf_length hqtgt
      omega
    have hnotundertgt : isInitOf tgt q = false := by
      by_cases hik : isInitOf tgt q = true
      · have := isInitOf_length hik
        omega
      · exact Bool.eq_false_iff.mpr hik
    rw [hfs1 q, if_neg (by rw [hnotundertgt]; decide)]
    have htake : tgt.take q.length = q := by
      rw [isInitOf_iff] at hqtgt
      obtain ⟨r, hr⟩ := hqtgt
      rw [hr, List.take_left]
    have hwfd := (hwf.2 (tgt, vt) (mem_of_lookupFS_eq_some hvt)).2 q.length hqlen hq2
    rw [htake] at hwfd
    exact hwfd
  have hsrc1 : lookupFS fs1 src = lookupFS fs src := by
    rw [hfs1 src, if_neg (by rw [hts]; decide)]
  have hsrc1ex : existsPath fs1 src = true := by
    rw [existsPath, hsrc1]
    rw [existsPath] at hsrc
    exact hsrc
  have hren : osRename fs1 src tgt =
      Except.ok (fs1.map (fun e => (mvKey src tgt e.1, e.2))) := by
    rw [osRename, if_neg (by rw [hsrc1ex]; decide),
      if_neg (fun hc => by rw [hst] at hc; cases hc.1)]
  refine ⟨fs1.map (fun e => (mvKey src tgt e.1, e.2)), ?_, ?_, ?_⟩
  · simp only [rename_path, hra, hrb]
    rw [if_neg (by rw [hsrc]; decide), if_neg (by simp), if_pos htgt, hfs1eq, hmkd]
    show (match osRename fs1 src tgt with
      | Except.error e => (Except.error e, fs1)
      | Except.ok fs3 => (Except.ok (posixOf tgt), fs3)) =
      (Except.ok (posixOf tgt), fs1.map (fun e => (mvKey src tgt e.1, e.2)))
    rw [hren]
  · have hnone : lookupFS (fs1.map (fun e => (mvKey src tgt e.1, e.2))) src = none := by
      rw [lookupFS_eq_none_iff]
      intro e he hek
      obtain ⟨e1, he1, heq⟩ := List.mem_map.mp he
      rw [← heq] at hek
      have hek2 : mvKey src tgt e1.1 = src := hek
      rw [mvKey] at hek2
      by_cases hik : isInitOf src e1.1 = true
      · rw [if_pos hik] at hek2
        have hcontra : isInitOf tgt src = true := by
          rw [← hek2]
          exact isInitOf_append _ _
        rw [hts] at hcontra
        cases hcontra
      · rw [if_neg hik] at hek2
        rw [hek2, isInitOf_refl] at hik
        exact hik rfl
    rw [existsPath, hnone]
    simp [hsrcne]
  · intro q
    have hpoint : ∀ e ∈ fs1, (mvKey src tgt e.1 = tgt ++ q ↔ e.1 = src ++ q) := by
      intro e he
      constructor
      · intro hk
        rw [mvKey] at hk
        by_cases hik : isInitOf src e.1 = true
        · rw [if_pos hik] at hk
          have hdropeq : e.1.drop src.length = q := by
            have h2 := congrArg (List.drop tgt.length) hk
            rwa [List.drop_left, List.drop_left] at h2
          rw [← isInitOf_drop hik, hdropeq]
        · rw [if_neg hik] at hk
          exfalso
          have hcontra : isInitOf tgt e.1 = true := by
            rw [hk]
            exact isInitOf_append _ _
          rw [hfs1mem e he] at hcontra
          cases hcontra
      · intro hk
        rw [mvKey, hk, if_pos (isInitOf_append src q), List.drop_left]
    rw [lookupFS_map_keys (mvKey src tgt) fs1 hpoint, hfs1 (src ++ q)]
    rw [if_neg ?_]
    intro hik
    rcases le_or_lt tgt.length src.length with hle | hlt
    · have hcontra := isInitOf_of_append_right hik hle
      rw [hts] at hcontra
      cases hcontra
    · rw [isInitOf_iff] at hik
      obtain ⟨r, hr⟩ := hik
      have hinit : isInitOf src (tgt ++ r) = true := by
        rw [← hr]
        exact isInitOf_append _ _
      have hcontra := isInitOf_of_append_right hinit (by omega)
      rw [hst] at hcontra
      cases hcontra

/-- C7: `rename_path` fails `NotFound` when the source is absent (part 1);
fails `Conflict` when the destination exists without `overwrite` (part 2);
with `overwrite=true` and an existing destination — amended: provided
neither path is the other's ancestor or equal to it — it removes the
destination and succeeds, after which the source no longer exists and the
destination holds exactly the source's prior content (part 3). -/
theorem rename_path_spec (root : List String) (a b : String) (fs : FS)
    (src tgt : List String)
    (hra : resolveWorkspacePath root a false = Except.ok src)
    (hrb : resolveWorkspacePath root b false = Except.ok tgt) :
    (∀ ow, existsPath fs src = false →
      rename_path root a b ow fs = (Except.error WsError.notFound, fs)) ∧
    (existsPath fs src = true → existsPath fs tgt = true →
      rename_path root a b false fs = (Except.error WsError.conflict, fs)) ∧
    (WFfs fs → existsPath fs src = true → existsPath fs tgt = true →
      isInitOf src tgt = false → isInitOf tgt src = false →
      ∃ fs2, rename_path root a b true fs = (Except.ok (posixOf tgt), fs2) ∧
        existsPath fs2 src = false ∧
        ∀ q, lookupFS fs2 (tgt ++ q) = lookupFS fs (src ++ q)) := by
  refine ⟨?_, ?_, ?_⟩
  · intro ow hex
    simp only [rename_path, hra, hrb]
    rw [if_pos hex]
  · intro hsrc htgt
    simp only [rename_path, hra, hrb]
    rw [if_neg (by rw [hsrc]; decide), if_pos ⟨htgt, by trivial⟩]
  · intro hwf hsrc htgt hst hts
    have hsrcne : src ≠ [] := by
      intro h0
      rw [h0, isInitOf_nil_left] at hst
      cases hst
    have htgtne : tgt ≠ [] := by
      intro h0
      rw [h0, isInitOf_nil_left] at hts
      cases hts
    obtain ⟨vt, hvt⟩ : ∃ v, lookupFS fs tgt = some v := by
      rw [existsPath] at htgt
      rcases hl : lookupFS fs tgt with _ | v
      · rw [hl] at htgt
        simp [htgtne] at htgt
      · exact ⟨v, rfl⟩
    rcases hdt : isDirAt fs tgt with _ | _
    case false =>
      obtain ⟨bb, hbb⟩ : ∃ bb, vt = FsNode.file bb := by
        cases vt with
        | file bb => exact ⟨bb, rfl⟩
        | dir =>
          rw [isDirAt, hvt] at hdt
          simp at hdt
      refine rename_overwrite_case root a b fs src tgt hra hrb hwf hsrc htgt hst hts
        hsrcne vt hvt (fs.filter (fun e => decide (e.1 ≠ tgt)))
        (by rw [if_neg (by rw [hdt]; decide)]) ?_ ?_
      · intro k
        rw [lookupFS_filter (fun k => decide (k ≠ tgt)) fs k]
        by_cases hik : isInitOf tgt k = true
        · rw [if_pos hik]
          by_cases hkt : k = tgt
          · rw [if_neg (by rw [hkt]; simp)]
          · rw [if_pos (by simp [hkt])]
            exact WF_no_descendant_of_file hwf (hbb ▸ hvt) hik hkt
        · have hkt : k ≠ tgt := by
            intro h0
            rw [h0, isInitOf_refl] at hik
            exact hik rfl
          rw [if_neg hik, if_pos (by simp [hkt])]
      · intro e he
        have hm := List.mem_filter.mp he
        by_cases hik : isInitOf tgt e.1 = true
        · exfalso
          have hkt : e.1 ≠ tgt := by simpa using hm.2
          have hnone := WF_no_descendant_of_file hwf (hbb ▸ hvt) hik hkt
          rw [lookupFS_eq_none_iff] at hnone
          exact hnone e hm.1 rfl
        · exact Bool.eq_false_iff.mpr hik
    case true =>
      refine rename_overwrite_case root a b fs src tgt hra hrb hwf hsrc htgt hst hts
        hsrcne vt hvt (fs.filter (fun e => !(isInitOf tgt e.1)))
        (by rw [if_pos hdt]) ?_ ?_
      · intro k
        rw [lookupFS_filter (fun k => !(isInitOf tgt k)) fs k]
        by_cases hik : isInitOf tgt k = true
        · rw [if_pos hik, if_neg (by rw [hik]; decide)]
        · rw [if_neg hik, if_pos (by rw [Bool.eq_false_iff.mpr hik]; decide)]
      · intro e he
        have := List.mem_filter.mp he
        simpa using this.2

/-- C7 counterexample: with `a` an existing directory and `b = a/b` an
existing file inside it, `rename_path(a, a/b, overwrite=true)` does not
succeed — clearing the destination and then `os.rename` moving `a` into
itself fails — contradicting the claim's unconditional "succeeds". -/
theorem rename_overwrite_nested_fails :
    existsPath [(["a"], FsNode.dir), (["a", "b"], FsNode.file [1])] ["a"] = true ∧
    existsPath [(["a"], FsNode.dir), (["a", "b"], FsNode.file [1])] ["a", "b"] = true ∧
    (rename_path ["r"] "a" "a/b" true
      [(["a"], FsNode.dir), (["a", "b"], FsNode.file [1])]).1 =
      Except.error WsError.osError := by
  refine ⟨by decide, by decide, by decide⟩

/-- C7 witness: rename of a file onto an existing unrelated file with
`overwrite=true`; the conflict and not-found parts are also instantiated. -/
theorem rename_path_spec_witness :
    resolveWorkspacePath ["r"] "a" false = Except.ok ["a"] ∧
    WFfs [(["a"], FsNode.file [104]), (["b"], FsNode.file [9])] ∧
    (rename_path ["r"] "a" "b" false
      [(["a"], FsNode.file [104]), (["b"], FsNode.file [9])] =
      (Except.error WsError.conflict,
        [(["a"], FsNode.file [104]), (["b"], FsNode.file [9])])) ∧
    ∃ fs2, rename_path ["r"] "a" "b" true
        [(["a"], FsNode.file [104]), (["b"], FsNode.file [9])] =
        (Except.ok (posixOf ["b"]), fs2) ∧
      existsPath fs2 ["a"] = false ∧
      ∀ q, lookupFS fs2 (["b"] ++ q) =
        lookupFS [(["a"], FsNode.file [104]), (["b"], FsNode.file [9])] (["a"] ++ q) := by
  refine ⟨by decide, by decide, ?_, ?_⟩
  · exact (rename_path_spec ["r"] "a" "b"
      [(["a"], FsNode.file [104]), (["b"], FsNode.file [9])] ["a"] ["b"]
      (by decide) (by decide)).2.1 (by decide) (by decide)
  · exact (rename_path_spec ["r"] "a" "b"
      [(["a"], FsNode.file [104]), (["b"], FsNode.file [9])] ["a"] ["b"]
      (by decide) (by decide)).2.2 (by decide) (by decide) (by decide) (by decide)
      (by decide)

/-- C5: `build_workspace_zip` is independent of filesystem iteration order —
two enumerations of the same files (permutations with distinct paths) yield
the identical archive, byte-determinism's mechanism — and its entry order is
exactly the sorted root-relative POSIX path order of the regular files. -/
theorem build_zip_deterministic_and_sorted :
    (∀ fs1 fs2 : FS, fs1.Perm fs2 →
      ((fs1.filter isFileEntry).map (fun e => posixOf e.1)).Nodup →
      build_workspace_zip fs1 = build_workspace_zip fs2) ∧
    (∀ fs : FS, ((build_workspace_zip fs).map Prod.fst).Sorted strLe ∧
      ((build_workspace_zip fs).map Prod.fst).Perm
        ((fs.filter isFileEntry).map (fun e => posixOf e.1))) := by
  have hmapfst : ∀ fs : FS, (build_workspace_zip fs).map Prod.fst =
      (sortedFileEntries fs).map (fun e => posixOf e.1) := by
    intro fs
    rw [build_workspace_zip, List.map_map]
    rfl
  constructor
  · intro fs1 fs2 hperm hnd
    rw [build_workspace_zip, build_workspace_zip]
    have heq : sortedFileEntries fs1 = sortedFileEntries fs2 := by
      refine sorted_perm_eq_of_nodup_keys (fun e => posixOf e.1) strLe
        (fun x y h1 h2 => strLe_antisymm h1 h2) (sortedFileEntries fs1)
        (sortedFileEntries fs2) ?_ ?_ ?_ ?_
      · exact ((List.perm_insertionSort entryLe (fs1.filter isFileEntry)).trans
          (hperm.filter isFileEntry)).trans
          (List.perm_insertionSort entryLe (fs2.filter isFileEntry)).symm
      · exact ((List.perm_insertionSort entryLe
          (fs1.filter isFileEntry)).map (fun e => posixOf e.1)).nodup_iff.mpr hnd
      · exact List.sorted_insertionSort entryLe (fs1.filter isFileEntry)
      · exact List.sorted_insertionSort entryLe (fs2.filter isFileEntry)
    rw [heq]
  · intro fs
    constructor
    · rw [hmapfst fs]
      exact List.Pairwise.map (fun e : List String × FsNode => posixOf e.1)
        (fun x y (h : entryLe x y) => h)
        (List.sorted_insertionSort entryLe (fs.filter isFileEntry))
    · rw [hmapfst fs]
      exact (List.perm_insertionSort entryLe (fs.filter isFileEntry)).map
        (fun e : List String × FsNode => posixOf e.1)

/-- C5 witness: two iteration orders of the same two files produce the same
archive, and the entries come out in sorted path order. -/
theorem build_zip_deterministic_witness :
    ([(["b"], FsNode.file [2]), (["a", "x"], FsNode.file [1]), (["a"], FsNode.dir)] : FS).Perm
      [(["a", "x"], FsNode.file [1]), (["a"], FsNode.dir), (["b"], FsNode.file [2])] ∧
    ((([(["b"], FsNode.file [2]), (["a", "x"], FsNode.file [1]),
      (["a"], FsNode.dir)] : FS).filter isFileEntry).map
        (fun e : List String × FsNode => posixOf e.1)).Nodup ∧
    build_workspace_zip
        [(["b"], FsNode.file [2]), (["a", "x"], FsNode.file [1]), (["a"], FsNode.dir)] =
      build_workspace_zip
        [(["a", "x"], FsNode.file [1]), (["a"], FsNode.dir), (["b"], FsNode.file [2])] ∧
    ((build_workspace_zip
      [(["b"], FsNode.file [2]), (["a", "x"], FsNode.file [1]),
        (["a"], FsNode.dir)]).map Prod.fst).Sorted strLe := by
  refine ⟨?_, by decide, ?_, ?_⟩
  · exact (List.Perm.swap (["a", "x"], FsNode.file [1]) (["b"], FsNode.file [2])
      [(["a"], FsNode.dir)]).trans (List.Perm.cons _ (List.Perm.swap _ _ _))
  · exact build_zip_deterministic_and_sorted.1
      [(["b"], FsNode.file [2]), (["a", "x"], FsNode.file [1]), (["a"], FsNode.dir)]
      [(["a", "x"], FsNode.file [1]), (["a"], FsNode.dir), (["b"], FsNode.file [2])]
      ((List.Perm.swap (["a", "x"], FsNode.file [1]) (["b"], FsNode.file [2])
        [(["a"], FsNode.dir)]).trans (List.Perm.cons _ (List.Perm.swap _ _ _)))
      (by decide)
  · exact (build_zip_deterministic_and_sorted.2
      [(["b"], FsNode.file [2]), (["a", "x"], FsNode.file [1]), (["a"], FsNode.dir)]).1

/-! ## Lemmas: session ids and the registry -/

theorem not_whitespace_of_idChar {c : Char} (h : isWorkspaceIdChar c = true) :
    c.isWhitespace = false := by
  rcases hw : c.isWhitespace with _ | _
  · rfl
  · exfalso
    have hc : ((c = ' ' ∨ c = '\t') ∨ c = '\r') ∨ c = '\n' := by
      simpa [Char.isWhitespace] using hw
    rcases hc with ((rfl | rfl) | rfl) | rfl <;> exact absurd h (by decide)

theorem dropWhile_ws_eq_self {l : List Char}
    (h : ∀ c ∈ l, Char.isWhitespace c = false) :
    l.dropWhile Char.isWhitespace = l := by
  cases l with
  | nil => rfl
  | cons c cs =>
    rw [List.dropWhile_cons, h c (List.mem_cons_self c cs)]
    simp

theorem stripString_eq_self {s : String}
    (h : ∀ c ∈ s.data, Char.isWhitespace c = false) : stripString s = s := by
  obtain ⟨d⟩ := s
  have hd : ∀ c ∈ d, Char.isWhitespace c = false := h
  rw [stripString]
  show (⟨((d.dropWhile Char.isWhitespace).reverse.dropWhile Char.isWhitespace).reverse⟩ :
    String) = ⟨d⟩
  rw [dropWhile_ws_eq_self hd,
    dropWhile_ws_eq_self (fun c hc => hd c (List.mem_reverse.mp hc)),
    List.reverse_reverse]

theorem normalizeWorkspaceId_ok_facts {wid : Option String} {nid : String}
    (h : normalizeWorkspaceId wid = Except.ok nid) :
    normalizeWorkspaceId (some nid) = Except.ok nid ∧ stripString nid = nid ∧ nid ≠ "" := by
  simp only [normalizeWorkspaceId] at h
  by_cases h1 : stripString (wid.getD "") = ""
  · rw [if_pos h1] at h
    cases h
    refine ⟨by decide, by decide, by decide⟩
  · rw [if_neg h1] at h
    by_cases h2 : (stripString (wid.getD "")).length ≤ 128 ∧
        (stripString (wid.getD "")).data.all isWorkspaceIdChar = true
    · rw [if_pos h2] at h
      cases h
      have hws : ∀ c ∈ (stripString (wid.getD "")).data, Char.isWhitespace c = false := by
        intro c hc
        exact not_whitespace_of_idChar (List.all_eq_true.mp h2.2 c hc)
      have hself := stripString_eq_self hws
      refine ⟨?_, hself, h1⟩
      simp only [normalizeWorkspaceId, Option.getD_some]
      rw [hself, if_neg h1, if_pos h2]
    · rw [if_neg h2] at h
      exact absurd h (by simp)

theorem effectiveWorkspaceId_of_normalized {nid : String} (ctx : Option String)
    (hn : normalizeWorkspaceId (some nid) = Except.ok nid)
    (hself : stripString nid = nid) (hne : nid ≠ "") :
    effectiveWorkspaceId (some nid) ctx = Except.ok nid := by
  simp only [effectiveWorkspaceId]
  rw [if_pos (by rw [hself]; exact hne)]
  exact hn

theorem ensure_session_existing_eq (baseDir : List String) (ctx : Option String)
    (reg : Registry) (wid : Option String) (nid : String) (s : WsSession) (ttl now : Nat)
    (hefid : effectiveWorkspaceId wid ctx = Except.ok nid)
    (hs : lookupReg reg nid = some s)
    (hpath : s.path = sessionPath baseDir nid) :
    ensure_session baseDir ctx reg wid ttl now =
      (if sessionExpired s now = true then
        Except.ok (newSession nid (sessionPath baseDir nid) ttl now,
          insertReg (removeReg reg nid) nid
            (newSession nid (sessionPath baseDir nid) ttl now))
      else
        Except.ok ({ s with
                      last_accessed := now,
                      expires_at := now + s.ttl_seconds,
                      path := sessionPath baseDir nid },
          insertReg reg nid
            { s with
                last_accessed := now,
                expires_at := now + s.ttl_seconds,
                path := sessionPath baseDir nid })) := by
  simp only [ensure_session, hefid, hs]
  rw [if_neg (fun hc => hc hpath)]
  simp only [hs]

theorem lookupReg_remove_self (reg : Registry) (k : String) :
    lookupReg (removeReg reg k) k = none := by
  rw [removeReg]
  induction reg with
  | nil => rfl
  | cons e rest ih =>
    rw [List.filter_cons]
    by_cases he : e.1 = k
    · rw [if_neg (by simp [he])]
      exact ih
    · rw [if_pos (by simp [he]), lookupReg, if_neg he]
      exact ih

/-- C4 (amended): a `touch_session`/`ensure_session` call on an existing
session strictly increases its `expiresAt` provided the call happens
strictly after the session's last renewal and any explicit TTL override is
at least the session's current `ttl_seconds` (the registry invariant
`expiresAt = lastAccessed + ttlSeconds` and positive TTLs are assumed). -/
theorem session_renewal_extends_expiry (baseDir : List String) (ctx : Option String)
    (reg : Registry) (wid : Option String) (widS nid : String) (s : WsSession)
    (ttl now : Nat) (ttlOv : Option Nat)
    (hefid : effectiveWorkspaceId wid ctx = Except.ok nid)
    (hnormS : normalizeWorkspaceId (some widS) = Except.ok nid)
    (hs : lookupReg reg nid = some s)
    (hpath : s.path = sessionPath baseDir nid)
    (hinv : s.expires_at = s.last_accessed + s.ttl_seconds)
    (hlate : s.last_accessed < now)
    (_httls : 0 < s.ttl_seconds)
    (httl : 0 < ttl)
    (hov : ∀ t, ttlOv = some t → s.ttl_seconds ≤ t) :
    (∃ s2 reg2, ensure_session baseDir ctx reg wid ttl now = Except.ok (s2, reg2) ∧
      s.expires_at < s2.expires_at) ∧
    (∃ s2 reg2, touch_session baseDir ctx reg widS ttlOv now = Except.ok (s2, reg2) ∧
      s.expires_at < s2.expires_at) := by
  have hens := ensure_session_existing_eq baseDir ctx reg wid nid s ttl now hefid hs hpath
  obtain ⟨hn2, hself2, hne2⟩ := normalizeWorkspaceId_ok_facts hnormS
  have hefid2 : effectiveWorkspaceId (some nid) ctx = Except.ok nid :=
    effectiveWorkspaceId_of_normalized ctx hn2 hself2 hne2
  have hens2 := ensure_session_existing_eq baseDir ctx reg (some nid) nid s
    SESSION_TTL_SECONDS now hefid2 hs hpath
  constructor
  · rcases hexp : sessionExpired s now with _ | _
    case false =>
      rw [hens, hexp, if_neg (show ¬(false = true) by decide)]
      refine ⟨_, _, rfl, ?_⟩
      show s.expires_at < now + s.ttl_seconds
      omega
    case true =>
      rw [hens, hexp, if_pos (show (true = true) from rfl)]
      refine ⟨_, _, rfl, ?_⟩
      show s.expires_at < now + ttl
      have hle : s.expires_at ≤ now := by simpa [sessionExpired] using hexp
      omega
  · simp only [touch_session, hnormS, hens2]
    rcases hexp : sessionExpired s now with _ | _
    case false =>
      rw [if_neg (show ¬(false = true) by decide)]
      refine ⟨_, _, rfl, ?_⟩
      rcases hovc : ttlOv with _ | t
      · show s.expires_at < now + s.ttl_seconds
        omega
      · have hle := hov t hovc
        show s.expires_at < now + t
        omega
    case true =>
      rw [if_pos (show (true = true) from rfl)]
      refine ⟨_, _, rfl, ?_⟩
      have hle : s.expires_at ≤ now := by simpa [sessionExpired] using hexp
      rcases hovc : ttlOv with _ | t
      · show s.expires_at < now + SESSION_TTL_SECONDS
        show s.expires_at < now + 3600
        omega
      · have hlet := hov t hovc
        show s.expires_at < now + t
        omega

/-- C4 counterexample: `touch_session` with a smaller TTL override (10
seconds) moves `expiresAt` from 3600 down to 11 — not strictly greater. -/
theorem touch_session_can_shrink_expiry :
    (touch_session ["base"] none
        [("a", ⟨"a", ["base", "a"], 0, 3600, 3600⟩)] "a" (some 10) 1).toOption.map
      (fun r => r.1.expires_at) = some 11 ∧
    (⟨"a", ["base", "a"], 0, 3600, 3600⟩ : WsSession).expires_at = 3600 := by
  constructor <;> decide

/-- C4 witness. -/
theorem session_renewal_extends_expiry_witness :
    effectiveWorkspaceId (some "a") none = Except.ok "a" ∧
    lookupReg [("a", (⟨"a", ["base", "a"], 0, 3600, 3600⟩ : WsSession))] "a" =
      some ⟨"a", ["base", "a"], 0, 3600, 3600⟩ ∧
    (∃ s2 reg2, ensure_session ["base"] none
        [("a", ⟨"a", ["base", "a"], 0, 3600, 3600⟩)] (some "a") 3600 5 =
        Except.ok (s2, reg2) ∧
      (⟨"a", ["base", "a"], 0, 3600, 3600⟩ : WsSession).expires_at < s2.expires_at) ∧
    (∃ s2 reg2, touch_session ["base"] none
        [("a", ⟨"a", ["base", "a"], 0, 3600, 3600⟩)] "a" (some 7200) 5 =
        Except.ok (s2, reg2) ∧
      (⟨"a", ["base", "a"], 0, 3600, 3600⟩ : WsSession).expires_at < s2.expires_at) := by
  refine ⟨by decide, by decide, ?_, ?_⟩
  · exact (session_renewal_extends_expiry ["base"] none
      [("a", ⟨"a", ["base", "a"], 0, 3600, 3600⟩)] (some "a") "a" "a"
      ⟨"a", ["base", "a"], 0, 3600, 3600⟩ 3600 5 (some 7200)
      (by decide) (by decide) (by decide) (by decide) (by decide) (by decide)
      (by decide) (by decide)
      (fun t ht => by cases ht; decide)).1
  · exact (session_renewal_extends_expiry ["base"] none
      [("a", ⟨"a", ["base", "a"], 0, 3600, 3600⟩)] (some "a") "a" "a"
      ⟨"a", ["base", "a"], 0, 3600, 3600⟩ 3600 5 (some 7200)
      (by decide) (by decide) (by decide) (by decide) (by decide) (by decide)
      (by decide) (by decide)
      (fun t ht => by cases ht; decide)).2

/-- C9: for every valid session id, `delete_session` removes the registry
entry if present and deletes the session's root directory tree from disk,
returning `true` iff anything (registry entry or on-disk root) existed;
deleting a session whose root never existed is not an error.  The
hypothesis `hinv` is the program's registry/disk invariant: a registered
session's root directory exists on disk (`ensure_session` creates it on
every registration and renewal). -/
theorem delete_session_spec (baseDir : List String) (reg : Registry)
    (disk : List (List String)) (wid nid : String)
    (hn : normalizeWorkspaceId (some wid) = Except.ok nid)
    (hinv : ∀ s, lookupReg reg nid = some s → s.path ∈ disk)
    (hnd : disk.Nodup) :
    ∃ flag reg2 disk2,
      delete_session baseDir reg disk wid = Except.ok (flag, reg2, disk2) ∧
      lookupReg reg2 nid = none ∧
      (flag = true ↔ ((lookupReg reg nid).isSome = true ∨ sessionPath baseDir nid ∈ disk)) ∧
      (∀ s, lookupReg reg nid = some s → s.path ∉ disk2) ∧
      (lookupReg reg nid = none → sessionPath baseDir nid ∉ disk2) := by
  simp only [delete_session, hn]
  rcases hlr : lookupReg reg nid with _ | s
  · by_cases hd : sessionPath baseDir nid ∈ disk
    · rw [if_pos hd]
      refine ⟨true, _, _, rfl, lookupReg_remove_self reg nid, by simp [hd], ?_, ?_⟩
      · intro s hsome
        cases hsome
      · intro _
        exact List.Nodup.not_mem_erase hnd
    · rw [if_neg hd]
      refine ⟨false, _, _, rfl, lookupReg_remove_self reg nid, by simp [hd], ?_, ?_⟩
      · intro s hsome
        cases hsome
      · intro _
        exact hd
  · have hdin : s.path ∈ disk := hinv s hlr
    rw [if_pos hdin]
    refine ⟨true, _, _, rfl, lookupReg_remove_self reg nid, by simp, ?_, ?_⟩
    · intro s2 hsome
      cases hsome
      exact List.Nodup.not_mem_erase hnd
    · intro hcontra
      cases hcontra

/-- C9 witness: deleting a live session (entry and directory both removed,
returns true), and deleting an id that never existed (returns false,
no error). -/
theorem delete_session_spec_witness :
    normalizeWorkspaceId (some "a") = Except.ok "a" ∧
    (∃ flag reg2 disk2,
      delete_session ["base"] [("a", (⟨"a", ["base", "a"], 0, 3600, 3600⟩ : WsSession))]
          [["base", "a"]] "a" = Except.ok (flag, reg2, disk2) ∧
      lookupReg reg2 "a" = none ∧
      (flag = true ↔
        ((lookupReg [("a", (⟨"a", ["base", "a"], 0, 3600, 3600⟩ : WsSession))] "a").isSome =
          true ∨ sessionPath ["base"] "a" ∈ [["base", "a"]])) ∧
      (∀ s, lookupReg [("a", (⟨"a", ["base", "a"], 0, 3600, 3600⟩ : WsSession))] "a" =
        some s → s.path ∉ disk2) ∧
      (lookupReg [("a", (⟨"a", ["base", "a"], 0, 3600, 3600⟩ : WsSession))] "a" = none →
        sessionPath ["base"] "a" ∉ disk2)) ∧
    delete_session ["base"] [] [] "never" = Except.ok (false, [], []) := by
  refine ⟨by decide, ?_, by decide⟩
  exact delete_session_spec ["base"]
    [("a", (⟨"a", ["base", "a"], 0, 3600, 3600⟩ : WsSession))] [["base", "a"]] "a" "a"
    (by decide)
    (fun s hs => by
      have h0 : (some (⟨"a", ["base", "a"], 0, 3600, 3600⟩ : WsSession) :
        Option WsSession) = some s := hs
      cases h0
      decide)
    (by decide)
